import Mathlib

/-!
Verification development for the SmartScheduler timetable core
(`scheduler.py`, metrics from `output_generator.py`).

The Python code is shallowly embedded: dictionaries become association
lists in insertion order, Python `sorted` (a stable sort) becomes a
structural stable insertion sort, `random` becomes an explicit stream of
draws (each draw reduced into the requested range, so every behaviour of
the library generator corresponds to some stream), CPython float
arithmetic on the schedule scores is modelled exactly by unnormalised
fractions (`Frac`), and the CP-SAT engine is modelled by its contract: a
solver outcome is passed in as an optional satisfying assignment of the
generated boolean placement variables.
-/

namespace SmartScheduler

/-! ### Exact fraction arithmetic (model of the float scores) -/

/-- An unnormalised fraction.  All fractions built by the embedding keep a
positive denominator, so the cross-multiplication comparisons below agree
with the real-number comparisons. -/
structure Frac where
  num : Int
  den : Int
deriving DecidableEq, Repr

def Frac.ofInt (n : Int) : Frac := ⟨n, 1⟩

def Frac.add (a b : Frac) : Frac := ⟨a.num * b.den + b.num * a.den, a.den * b.den⟩

def Frac.sub (a b : Frac) : Frac := ⟨a.num * b.den - b.num * a.den, a.den * b.den⟩

def Frac.mul (a b : Frac) : Frac := ⟨a.num * b.num, a.den * b.den⟩

def Frac.div (a b : Frac) : Frac := ⟨a.num * b.den, a.den * b.num⟩

def Frac.fabs (a : Frac) : Frac := ⟨|a.num|, |a.den|⟩

def Frac.ltB (a b : Frac) : Bool := decide (a.num * b.den < b.num * a.den)

def Frac.leB (a b : Frac) : Bool := decide (a.num * b.den ≤ b.num * a.den)

def Frac.eqB (a b : Frac) : Bool := decide (a.num * b.den = b.num * a.den)

/-- Python `max(a, b)`: returns `b` exactly when `b > a`. -/
def Frac.fmax (a b : Frac) : Frac := if Frac.ltB a b then b else a

/-- The real number denoted by a fraction. -/
def Frac.toRat (a : Frac) : ℚ := (a.num : ℚ) / (a.den : ℚ)

/-! ### String utilities (models of the CPython string operations used) -/

/-- Lexicographic comparison of code points: CPython string `<=`. -/
def strLeChars : List Char → List Char → Bool
  | [], _ => true
  | _ :: _, [] => false
  | a :: s, b :: t =>
    if a.toNat < b.toNat then true
    else if b.toNat < a.toNat then false
    else strLeChars s t

def strLe (s t : String) : Bool := strLeChars s.data t.data

/-- ASCII lower-casing; the room kinds compared by the scheduler are ASCII,
where CPython `str.lower` acts exactly like this. -/
def asciiLowerChar (c : Char) : Char :=
  if 'A'.toNat ≤ c.toNat ∧ c.toNat ≤ 'Z'.toNat then Char.ofNat (c.toNat + 32) else c

def asciiLower (s : String) : String := ⟨s.data.map asciiLowerChar⟩

/-- ASCII upper-casing, as used on course types by the metrics module. -/
def asciiUpperChar (c : Char) : Char :=
  if 'a'.toNat ≤ c.toNat ∧ c.toNat ≤ 'z'.toNat then Char.ofNat (c.toNat - 32) else c

def asciiUpper (s : String) : String := ⟨s.data.map asciiUpperChar⟩

/-- Substring test: CPython `needle in hay`. -/
def strContains (hay needle : String) : Bool :=
  (List.range (hay.data.length + 1)).any (fun i => needle.data.isPrefixOf (hay.data.drop i))

/-- CPython `s.split(sep)` for a one-character separator, on `'_'`. -/
def splitUAux : List Char → List Char → List String
  | [], cur => [⟨cur.reverse⟩]
  | c :: t, cur => if c = '_' then ⟨cur.reverse⟩ :: splitUAux t [] else splitUAux t (c :: cur)

def splitU (s : String) : List String := splitUAux s.data []

/-- CPython `s.split(sep)[0]`: the part before the first underscore. -/
def firstField (s : String) : String := ⟨s.data.takeWhile (fun c => ¬ c = '_')⟩

/-- CPython `"_".join(l)`. -/
def joinU : List String → String
  | [] => ""
  | [x] => x
  | x :: xs => x ++ "_" ++ joinU xs

/-- CPython `s.startswith(p)`. -/
def startsWithB (s p : String) : Bool := p.data.isPrefixOf s.data

/-! ### Stable sort (model of CPython `sorted`) -/

/-- Insert an element before the first entry it is not greater-or-equal to;
together with `isort` this is a stable sort, hence produces the same list
as CPython `sorted` for the (total preorder) keys used here. -/
def insById {α : Type} (le : α → α → Bool) (a : α) : List α → List α
  | [] => [a]
  | b :: t => if le a b then a :: b :: t else b :: insById le a t

def isort {α : Type} (le : α → α → Bool) : List α → List α
  | [] => []
  | x :: xs => insById le x (isort le xs)

def sortStr (l : List String) : List String := isort strLe l

/-! ### Data model (`TimetableScheduler.__init__`) -/

structure Course where
  id : String
  type : String
  duration : Nat
deriving DecidableEq, Repr

structure Teacher where
  id : String
  courses_handled : List String
deriving DecidableEq, Repr

structure Room where
  id : String
  type : String
deriving DecidableEq, Repr

structure Timeslot where
  id : String
  day : String
  slot_index : Nat
deriving DecidableEq, Repr

structure Group where
  id : String
  courses : List String
deriving DecidableEq, Repr

/-- The five input tables, each in dictionary insertion order. -/
structure SchedInput where
  courses : List Course
  teachers : List Teacher
  rooms : List Room
  timeslots : List Timeslot
  groups : List Group
deriving DecidableEq, Repr

instance : Inhabited Course := ⟨⟨"", "", 0⟩⟩
instance : Inhabited Teacher := ⟨⟨"", []⟩⟩
instance : Inhabited Room := ⟨⟨"", ""⟩⟩
instance : Inhabited Timeslot := ⟨⟨"", "", 0⟩⟩
instance : Inhabited Group := ⟨⟨"", []⟩⟩

def courseIds (inp : SchedInput) : List String := inp.courses.map (·.id)
def teacherIds (inp : SchedInput) : List String := inp.teachers.map (·.id)
def roomIds (inp : SchedInput) : List String := inp.rooms.map (·.id)
def timeslotIds (inp : SchedInput) : List String := inp.timeslots.map (·.id)
def groupIds (inp : SchedInput) : List String := inp.groups.map (·.id)

def findCourseD (inp : SchedInput) (cid : String) : Course :=
  (inp.courses.find? (fun c => c.id = cid)).getD default

def findTeacherD (inp : SchedInput) (tid : String) : Teacher :=
  (inp.teachers.find? (fun t => t.id = tid)).getD default

def findTimeslotD (inp : SchedInput) (tsid : String) : Timeslot :=
  (inp.timeslots.find? (fun t => t.id = tsid)).getD default

def findGroupD (inp : SchedInput) (gid : String) : Group :=
  (inp.groups.find? (fun g => g.id = gid)).getD default

/-- `self.days = sorted(set(ts['day'] for ts in timeslots.values()))`. -/
def sortedDays (inp : SchedInput) : List String :=
  sortStr ((inp.timeslots.map (·.day)).dedup)

/-- `self.course_type_frequency` (scheduler.py lines 32-37). -/
def course_type_frequency : List (String × Nat) :=
  [("TH", 3), ("LAB", 2), ("PROJECT", 1), ("PR", 1)]

/-- `self.course_type_frequency.get(t, 1)`. -/
def freqOf (t : String) : Nat :=
  ((course_type_frequency.find? (fun p => p.1 = t)).map (·.2)).getD 1

/-- `_get_suitable_rooms` (scheduler.py lines 236-249), including the
fallback `elif len(suitable_rooms) == 0` branch inside the loop. -/
def get_suitable_rooms (inp : SchedInput) (course_type : String) : List String :=
  let sr := inp.rooms.foldl (fun acc r =>
    let rt := asciiLower r.type
    if course_type = "LAB" ∧ strContains rt "lab" then acc ++ [r.id]
    else if course_type = "PROJECT" ∧ strContains rt "project" then acc ++ [r.id]
    else if (course_type = "TH" ∨ course_type = "PR") ∧ strContains rt "classroom" then
      acc ++ [r.id]
    else if acc.length = 0 then acc ++ [r.id]
    else acc) []
  if sr.isEmpty then inp.rooms.map (·.id) else sr

/-- The set of rooms of the preferred kind for a course type, written from
the claim: kind contains "lab" for LAB, "project" for PROJECT,
"classroom" for TH or PR. -/
def preferredKindRooms (inp : SchedInput) (course_type : String) : List String :=
  (inp.rooms.filter (fun r =>
    let rt := asciiLower r.type
    if course_type = "LAB" then strContains rt "lab"
    else if course_type = "PROJECT" then strContains rt "project"
    else if course_type = "TH" ∨ course_type = "PR" then strContains rt "classroom"
    else false)).map (·.id)

/-! ### Schedules -/

/-- One value of the inner schedule dictionary:
`{'timeslot': …, 'teacher': …, 'room': …, 'course_id': …}`. -/
structure Entry where
  timeslot : String
  teacher : String
  room : String
  course_id : String
deriving DecidableEq, Repr

instance : Inhabited Entry := ⟨⟨"", "", "", ""⟩⟩

/-- `schedule[group_id]` is a dict keyed by session-part key. -/
abbrev GroupSched := List (String × Entry)

/-- `schedule` is a dict keyed by group id, in insertion order. -/
abbrev Schedule := List (String × GroupSched)

/-- Assignment to a dictionary key: overwrite if present, else append. -/
def insertEntry (m : GroupSched) (k : String) (e : Entry) : GroupSched :=
  if m.any (fun p => p.1 = k) then m.map (fun p => if p.1 = k then (k, e) else p)
  else m ++ [(k, e)]

def slotIndexOf (inp : SchedInput) (tsid : String) : Nat :=
  (findTimeslotD inp tsid).slot_index

/-- The ids of one day's timeslots in ascending `slot_index` order
(`sorted([ts for ts in timeslot_ids if day matches], key=slot_index)`). -/
def daySlotIds (inp : SchedInput) (day : String) : List String :=
  isort (fun a b => decide (slotIndexOf inp a ≤ slotIndexOf inp b))
    ((timeslotIds inp).filter (fun tsid => (findTimeslotD inp tsid).day = day))

/-- `f"{instance_key}_part{i+1}" if course_duration > 1 else instance_key`. -/
def partKey (instKey : String) (duration i : Nat) : String :=
  if 1 < duration then instKey ++ "_part" ++ toString (i + 1) else instKey

/-! ### `_individual_to_schedule` (scheduler.py lines 324-362) -/

/-- The entries one decoded session writes into its group's dictionary,
given the three decoded indices. -/
def decodeEmit (inp : SchedInput) (c : Course) (instKey : String)
    (tIdx teIdx rIdx : Nat) (m : GroupSched) : GroupSched :=
  let tsId := (timeslotIds inp).getD tIdx ""
  let day := (findTimeslotD inp tsId).day
  let dayIds := daySlotIds inp day
  let startIdx := dayIds.findIdx (fun x => x = tsId)
  if (startIdx : Int) + (c.duration : Int) - 1 < (dayIds.length : Int) then
    (((dayIds.drop startIdx).take c.duration).enum).foldl
      (fun m p =>
        insertEntry m (partKey instKey c.duration p.1)
          ⟨p.2, (teacherIds inp).getD teIdx "", (roomIds inp).getD rIdx "", c.id⟩)
      m
  else m

/-- The per-course instance loop of `_individual_to_schedule`, threading the
gene cursor `idx`; the cursor advances only when three genes remain. -/
def decodeCourse (inp : SchedInput) (ind : List Int) (c : Course)
    (st : Nat × GroupSched) : Nat × GroupSched :=
  (List.range (freqOf c.type)).foldl
    (fun st i =>
      let instKey := c.id ++ "_" ++ toString (i + 1)
      if st.1 + 2 < ind.length then
        let tIdx := ((ind.getD st.1 0).emod ((timeslotIds inp).length : Int)).toNat
        let teIdx := ((ind.getD (st.1 + 1) 0).emod ((teacherIds inp).length : Int)).toNat
        let rIdx := ((ind.getD (st.1 + 2) 0).emod ((roomIds inp).length : Int)).toNat
        (st.1 + 3, decodeEmit inp c instKey tIdx teIdx rIdx st.2)
      else st)
    st

def sortedGroups (inp : SchedInput) : List Group :=
  isort (fun a b => strLe a.id b.id) inp.groups

def decodeGroup (inp : SchedInput) (ind : List Int) (g : Group) (idx : Nat) :
    Nat × GroupSched :=
  (sortStr g.courses).foldl
    (fun st cid =>
      if (courseIds inp).contains cid then decodeCourse inp ind (findCourseD inp cid) st
      else st)
    (idx, [])

/-- `_individual_to_schedule`. -/
def individualToSchedule (inp : SchedInput) (ind : List Int) : Schedule :=
  ((sortedGroups inp).foldl
    (fun st g =>
      let r := decodeGroup inp ind g st.1
      (r.1, st.2 ++ [(g.id, r.2)]))
    (0, ([] : Schedule))).2

/-! ### Fitness (`_evaluate_schedule` and helpers, lines 364-425) -/

/-- `for i in range(1, len): gaps += max(0, l[i] - l[i-1] - 1)`. -/
def gapSum : List Int → Int
  | a :: b :: t => max 0 (b - a - 1) + gapSum (b :: t)
  | _ => 0

def groupSlotIndices (inp : SchedInput) (entries : GroupSched) : List Int :=
  entries.map (fun p => ((findTimeslotD inp p.2.timeslot).slot_index : Int))

/-- `_evaluate_gaps`, an integer by CPython arithmetic. -/
def evalGapsZ (inp : SchedInput) (sched : Schedule) : Int :=
  let total := (groupIds inp).foldl
    (fun acc gid =>
      match sched.find? (fun p => p.1 = gid) with
      | none => acc
      | some p =>
        let l := groupSlotIndices inp p.2
        if 1 < l.length then acc + gapSum (isort (fun a b => decide (a ≤ b)) l)
        else acc)
    0
  max 0 (100 - total * 5)

def allEntries (sched : Schedule) : List (String × Entry) :=
  sched.foldl (fun acc p => acc ++ p.2) []

/-- `_evaluate_distribution`. -/
def evalDistributionF (inp : SchedInput) (sched : Schedule) : Frac :=
  let es := allEntries sched
  let total := es.length
  if total = 0 then Frac.ofInt 0
  else
    let days := ((timeslotIds inp).map (fun tsid => (findTimeslotD inp tsid).day)).dedup
    let ideal := Frac.div (Frac.ofInt total) (Frac.ofInt days.length)
    let dev := days.foldl
      (fun acc d =>
        let cnt := es.countP (fun p => (findTimeslotD inp p.2.timeslot).day = d)
        Frac.add acc (Frac.fabs (Frac.sub (Frac.ofInt cnt) ideal)))
      (Frac.ofInt 0)
    Frac.fmax (Frac.ofInt 0) (Frac.sub (Frac.ofInt 100) (Frac.mul dev (Frac.ofInt 10)))

/-- `_evaluate_workload_balance`. -/
def evalWorkloadF (sched : Schedule) : Frac :=
  let es := allEntries sched
  let teachers := (es.map (fun p => p.2.teacher)).dedup
  if teachers.isEmpty then Frac.ofInt 0
  else
    let loads := teachers.map (fun t => (es.countP (fun p => p.2.teacher = t) : Int))
    let avg := Frac.div (Frac.ofInt (loads.foldl (· + ·) 0)) (Frac.ofInt loads.length)
    let dev := loads.foldl
      (fun acc w => Frac.add acc (Frac.fabs (Frac.sub (Frac.ofInt w) avg)))
      (Frac.ofInt 0)
    Frac.fmax (Frac.ofInt 0) (Frac.sub (Frac.ofInt 100) (Frac.mul dev (Frac.ofInt 5)))

/-- `_evaluate_schedule`: decode, then 0.3·gaps + 0.3·distribution +
0.4·workload. -/
def evaluateF (inp : SchedInput) (ind : List Int) : Frac :=
  let s := individualToSchedule inp ind
  Frac.add
    (Frac.add (Frac.mul (Frac.ofInt (evalGapsZ inp s)) ⟨3, 10⟩)
      (Frac.mul (evalDistributionF inp s) ⟨3, 10⟩))
    (Frac.mul (evalWorkloadF s) ⟨4, 10⟩)

/-! ### `_schedule_to_individual` (lines 302-322) -/

def scheduleToIndividual (inp : SchedInput) (sched : Schedule) : List Int :=
  (sortStr (groupIds inp)).foldl
    (fun acc gid =>
      match sched.find? (fun p => p.1 = gid) with
      | none => acc
      | some p =>
        let entries := p.2
        let gcs := sortStr ((entries.map (fun q => q.2.course_id)).dedup)
        gcs.foldl
          (fun acc cid =>
            (List.range (freqOf ((findCourseD inp cid).type))).foldl
              (fun acc i =>
                let instKey := cid ++ "_" ++ toString (i + 1)
                match entries.find? (fun q => startsWithB q.1 instKey) with
                | some q =>
                  acc ++ [((timeslotIds inp).findIdx (fun x => x = q.2.timeslot) : Int),
                          ((teacherIds inp).findIdx (fun x => x = q.2.teacher) : Int),
                          ((roomIds inp).findIdx (fun x => x = q.2.room) : Int)]
                | none => acc ++ [0, 0, 0])
              acc)
          acc)
    []

/-! ### Random source

The GA consumes CPython's global `random`; a run is parameterised by the
stream of draws, and the functions below thread the current position in
that stream.  Every draw is reduced into the requested range, so every
behaviour of the library generator is realised by some stream. -/

/-- `random.random() < p` only ever compares against 0.7 and 0.2, so a
granularity of 1/1000 realises every reachable behaviour. -/
def randFloat (stream : Nat → Nat) (pos : Nat) : Frac × Nat :=
  (⟨(stream pos % 1000 : Nat), 1000⟩, pos + 1)

/-- `random.randint(a, b)` (inclusive bounds). -/
def randInt (a b : Nat) (stream : Nat → Nat) (pos : Nat) : Nat × Nat :=
  (a + stream pos % (b - a + 1), pos + 1)

/-- `random.choice` on a list of the given length, as an index. -/
def randChoice (n : Nat) (stream : Nat → Nat) (pos : Nat) : Nat × Nat :=
  (stream pos % n, pos + 1)

/-! ### GA operators (lines 251-300, 427-450) and DEAP plumbing -/

/-- A DEAP individual: genome plus cached fitness (`None` when invalid). -/
structure Indiv where
  genes : List Int
  fit : Option Frac
deriving DecidableEq, Repr

instance : Inhabited Indiv := ⟨⟨[], none⟩⟩

def fitF (i : Indiv) : Frac := i.fit.getD (Frac.ofInt 0)

/-- One tournament of size 3 (`tools.selTournament`): three uniform picks,
first-encountered maximal fitness wins (CPython `max`). -/
def tournamentOne (pop : List Indiv) (stream : Nat → Nat) (pos : Nat) : Indiv × Nat :=
  let p1 := randChoice pop.length stream pos
  let p2 := randChoice pop.length stream p1.2
  let p3 := randChoice pop.length stream p2.2
  let a1 := pop.getD p1.1 default
  let a2 := pop.getD p2.1 default
  let a3 := pop.getD p3.1 default
  let b1 := if Frac.ltB (fitF a1) (fitF a2) then a2 else a1
  let b2 := if Frac.ltB (fitF b1) (fitF a3) then a3 else b1
  (b2, p3.2)

def selTournament (pop : List Indiv) (k : Nat) (stream : Nat → Nat) (pos : Nat) :
    List Indiv × Nat :=
  (List.range k).foldl
    (fun st _ =>
      let w := tournamentOne pop stream st.2
      (st.1 ++ [w.1], w.2))
    ([], pos)

/-- `_crossover` (lines 427-437): tail exchange at a cut point snapped to a
multiple of 3, only when the genomes have equal length above 3. -/
def cxSwap (g1 g2 : List Int) (stream : Nat → Nat) (pos : Nat) :
    (List Int × List Int) × Nat :=
  if g1.length = g2.length then
    if 3 < g1.length then
      let p := randInt 1 (g1.length - 1) stream pos
      let cx := p.1 / 3 * 3
      ((g1.take cx ++ g2.drop cx, g2.take cx ++ g1.drop cx), p.2)
    else ((g1, g2), pos)
  else ((g1, g2), pos)

/-- The mating loop over consecutive offspring pairs: with probability 0.7
mate and invalidate both fitnesses. -/
def matePairs (stream : Nat → Nat) : List Indiv → Nat → List Indiv × Nat
  | a :: b :: rest, pos =>
    let p := randFloat stream pos
    if Frac.ltB p.1 ⟨7, 10⟩ then
      let q := cxSwap a.genes b.genes stream p.2
      let rec' := matePairs stream rest q.2
      (⟨q.1.1, none⟩ :: ⟨q.1.2, none⟩ :: rec'.1, rec'.2)
    else
      let rec' := matePairs stream rest p.2
      (a :: b :: rec'.1, rec'.2)
  | l, pos => (l, pos)

/-- `_mutate` (lines 439-450): pick a session start, one of its three genes,
and resample it uniformly over its domain. -/
def mutateGenes (inp : SchedInput) (g : List Int) (stream : Nat → Nat) (pos : Nat) :
    List Int × Nat :=
  if 3 ≤ g.length then
    let pm := randInt 0 (g.length / 3 - 1) stream pos
    let mp := pm.1 * 3
    let pc := randInt 0 2 stream pm.2
    if pc.1 = 0 then
      let pv := randInt 0 ((timeslotIds inp).length - 1) stream pc.2
      (g.set mp (pv.1 : Int), pv.2)
    else if pc.1 = 1 then
      let pv := randInt 0 ((teacherIds inp).length - 1) stream pc.2
      (g.set (mp + 1) (pv.1 : Int), pv.2)
    else
      let pv := randInt 0 ((roomIds inp).length - 1) stream pc.2
      (g.set (mp + 2) (pv.1 : Int), pv.2)
  else (g, pos)

/-- The mutation loop: with probability 0.2 mutate and invalidate. -/
def mutateAll (inp : SchedInput) (stream : Nat → Nat) : List Indiv → Nat → List Indiv × Nat
  | [], pos => ([], pos)
  | a :: rest, pos =>
    let p := randFloat stream pos
    if Frac.ltB p.1 ⟨2, 10⟩ then
      let q := mutateGenes inp a.genes stream p.2
      let rec' := mutateAll inp stream rest q.2
      (⟨q.1, none⟩ :: rec'.1, rec'.2)
    else
      let rec' := mutateAll inp stream rest p.2
      (a :: rec'.1, rec'.2)

/-- Re-evaluate exactly the individuals whose fitness was invalidated. -/
def reevaluate (inp : SchedInput) (l : List Indiv) : List Indiv :=
  l.map (fun i =>
    match i.fit with
    | some _ => i
    | none => ⟨i.genes, some (evaluateF inp i.genes)⟩)

/-- One generation of the loop in `_optimize_schedule` (lines 278-294). -/
def generationStep (inp : SchedInput) (stream : Nat → Nat) (st : List Indiv × Nat) :
    List Indiv × Nat :=
  let sel := selTournament st.1 st.1.length stream st.2
  let mated := matePairs stream sel.1 sel.2
  let muted := mutateAll inp stream mated.1 mated.2
  (reevaluate inp muted.1, muted.2)

/-- The initial population: 20 copies of the encoded base schedule, each
evaluated. -/
def initialPop (inp : SchedInput) (base : Schedule) : List Indiv :=
  (List.replicate 20 (Indiv.mk (scheduleToIndividual inp base) none)).map
    (fun i => ⟨i.genes, some (evaluateF inp i.genes)⟩)

/-- Population and stream position after the 10 generations. -/
def finalState (inp : SchedInput) (base : Schedule) (stream : Nat → Nat) :
    List Indiv × Nat :=
  (List.range 10).foldl (fun st _ => generationStep inp stream st)
    (initialPop inp base, 0)

/-- `tools.selBest(population, 1)[0]`: a stable descending sort puts the
first individual of maximal fitness in front. -/
def selBestFirst : List Indiv → Indiv
  | [] => default
  | x :: xs => xs.foldl (fun b y => if Frac.ltB (fitF b) (fitF y) then y else b) x

/-- `_optimize_schedule`: run the GA and materialise the winner. -/
def optimizeSchedule (inp : SchedInput) (base : Schedule) (stream : Nat → Nat) :
    Schedule :=
  individualToSchedule inp (selBestFirst (finalState inp base stream).1).genes

/-! ### The CP-SAT model (`_generate_feasible_schedule`, lines 60-234)

One boolean variable per legal placement; the solver is modelled by its
contract and a run receives an optional satisfying assignment, given as
the list of variables set to 1. -/

/-- One boolean placement variable of the CP model, identified by the same
data as its Python variable name
`f"{group_id}_{instance_key}_{timeslot_group_id}_{teacher_id}_{room_id}"`. -/
structure PlaceVar where
  group : String
  instKey : String
  tsGroupId : String
  teacher : String
  room : String
deriving DecidableEq, Repr

/-- `suitable_teachers = [t for t in teacher_ids if course_id in
teachers[t]['courses_handled']]`. -/
def suitableTeachers (inp : SchedInput) (cid : String) : List String :=
  (teacherIds inp).filter (fun t => (findTeacherD inp t).courses_handled.contains cid)

/-- The days in first-occurrence order (`day_to_slots` insertion order). -/
def daysInOrder (inp : SchedInput) : List String :=
  (inp.timeslots.map (·.day)).dedup

/-- The candidate consecutive-slot windows of one day
(`day_slots[i:i+course_duration]` filtered to full length). -/
def windowsFor (inp : SchedInput) (day : String) (dur : Nat) : List (List String) :=
  let ds := daySlotIds inp day
  ((List.range (ds.length - dur + 1)).map (fun i => (ds.drop i).take dur)).filter
    (fun w => w.length = dur)

/-- All placement variables of one session instance. -/
def varsForInstance (inp : SchedInput) (gid cid instKey : String) : List PlaceVar :=
  let c := findCourseD inp cid
  let sts := suitableTeachers inp cid
  let srs := get_suitable_rooms inp c.type
  (daysInOrder inp).flatMap (fun day =>
    (windowsFor inp day c.duration).flatMap (fun w =>
      sts.flatMap (fun t =>
        srs.map (fun rm => PlaceVar.mk gid instKey (joinU w) t rm))))

/-- The `(course_id, instance_key)` pairs of one group, in the creation
order of `assignments[group_id]` (invalid course ids skipped). -/
def instancesOfGroup (inp : SchedInput) (g : Group) : List (String × String) :=
  g.courses.flatMap (fun cid =>
    if (courseIds inp).contains cid then
      (List.range (freqOf ((findCourseD inp cid).type))).map
        (fun i => (cid, cid ++ "_" ++ toString (i + 1)))
    else [])

/-- All variables of the model, in creation order. -/
def modelVars (inp : SchedInput) : List PlaceVar :=
  inp.groups.flatMap (fun g =>
    (instancesOfGroup inp g).flatMap (fun p => varsForInstance inp g.id p.1 p.2))

/-- A linear constraint over boolean variables: `sum == 1` when the flag is
true, `sum <= 1` otherwise. -/
abbrev CPCons := Bool × List PlaceVar

/-- Constraint 1: each course instance scheduled exactly once — but only
posted when the instance has at least one variable. -/
def consAssign (inp : SchedInput) : List CPCons :=
  inp.groups.flatMap (fun g =>
    (instancesOfGroup inp g).filterMap (fun p =>
      let vs := varsForInstance inp g.id p.1 p.2
      if vs.isEmpty then none else some (true, vs)))

/-- Constraint 2: per teacher and slot, at most one covering placement. -/
def consTeacher (inp : SchedInput) : List CPCons :=
  (teacherIds inp).flatMap (fun t =>
    (sortedDays inp).flatMap (fun day =>
      (daySlotIds inp day).filterMap (fun slot =>
        let vs := (modelVars inp).filter
          (fun v => (splitU v.tsGroupId).contains slot ∧ v.teacher = t)
        if vs.isEmpty then none else some (false, vs))))

/-- Constraint 3: per room and slot, at most one covering placement. -/
def consRoom (inp : SchedInput) : List CPCons :=
  (roomIds inp).flatMap (fun rm =>
    (sortedDays inp).flatMap (fun day =>
      (daySlotIds inp day).filterMap (fun slot =>
        let vs := (modelVars inp).filter
          (fun v => (splitU v.tsGroupId).contains slot ∧ v.room = rm)
        if vs.isEmpty then none else some (false, vs))))

/-- Constraint 4: per group and slot, at most one covering placement. -/
def consGroup (inp : SchedInput) : List CPCons :=
  (groupIds inp).flatMap (fun gid =>
    (sortedDays inp).flatMap (fun day =>
      (daySlotIds inp day).filterMap (fun slot =>
        let vs := (modelVars inp).filter
          (fun v => (splitU v.tsGroupId).contains slot ∧ v.group = gid)
        if vs.isEmpty then none else some (false, vs))))

/-- Constraint 5: repeated instances of one course on the same day are
mutually exclusive, pairwise over their placements. -/
def consDaySep (inp : SchedInput) : List CPCons :=
  inp.groups.flatMap (fun g =>
    g.courses.flatMap (fun cid =>
      if (courseIds inp).contains cid then
        let freq := freqOf ((findCourseD inp cid).type)
        if 1 < freq then
          (List.range freq).flatMap (fun i =>
            ((List.range freq).filter (fun j => i < j)).flatMap (fun j =>
              let vsi := varsForInstance inp g.id cid (cid ++ "_" ++ toString (i + 1))
              let vsj := varsForInstance inp g.id cid (cid ++ "_" ++ toString (j + 1))
              vsi.flatMap (fun vi =>
                vsj.filterMap (fun vj =>
                  let di := (findTimeslotD inp ((splitU vi.tsGroupId).getD 0 "")).day
                  let dj := (findTimeslotD inp ((splitU vj.tsGroupId).getD 0 "")).day
                  if di = dj then some (false, [vi, vj]) else none))))
        else []
      else []))

def modelConstraints (inp : SchedInput) : List CPCons :=
  consAssign inp ++ consTeacher inp ++ consRoom inp ++ consGroup inp ++ consDaySep inp

/-- Whether the set of variables assigned 1 satisfies every constraint. -/
def satisfies (cs : List CPCons) (σ : List PlaceVar) : Bool :=
  cs.all (fun c =>
    let n := c.2.countP (fun v => σ.contains v)
    if c.1 then n = 1 else n ≤ 1)

/-- Schedule extraction from a solver assignment (lines 211-231); the
course id is recovered as `instance_key.split('_')[0]`. -/
def extractSchedule (inp : SchedInput) (σ : List PlaceVar) : Schedule :=
  inp.groups.foldl
    (fun acc g =>
      let entries := (instancesOfGroup inp g).foldl
        (fun m p =>
          let derivedCid := firstField p.2
          let dur := (findCourseD inp derivedCid).duration
          (varsForInstance inp g.id p.1 p.2).foldl
            (fun m v =>
              if σ.contains v then
                ((splitU v.tsGroupId).enum).foldl
                  (fun m q =>
                    insertEntry m (partKey p.2 dur q.1) ⟨q.2, v.teacher, v.room, derivedCid⟩)
                  m
              else m)
            m)
        []
      acc ++ [(g.id, entries)])
    []

/-- `generate_schedule`: the feasibility stage is the CP-SAT engine run by
contract (`solverRes` is a satisfying assignment when one was found, and
`none` on INFEASIBLE or timeout); on success the extracted schedule is
optimized by the GA, otherwise `None` is returned. -/
def generateSchedule (inp : SchedInput) (solverRes : Option (List PlaceVar))
    (stream : Nat → Nat) : Option Schedule :=
  solverRes.map (fun σ => optimizeSchedule inp (extractSchedule inp σ) stream)

/-! ### Quality metrics (`calculate_metrics`, output_generator.py) -/

/-- `re.sub(r"_\d+$", "", s)`: strip one trailing `_digits` suffix. -/
def stripInstanceSuffix (s : String) : String :=
  let r := s.data.reverse
  let ds := r.takeWhile Char.isDigit
  if ds.isEmpty then s
  else
    match r.drop ds.length with
    | '_' :: rest => ⟨rest.reverse⟩
    | _ => s

/-- The frequency table of `calculate_metrics`
(`{'TH': 3, 'PR': 2, 'LAB': 2, 'PROJECT': 1}`). -/
def metricsFreq : List (String × Nat) :=
  [("TH", 3), ("PR", 2), ("LAB", 2), ("PROJECT", 1)]

/-- The `required_classes` accumulation of `calculate_metrics`: for every
group and listed course id, add the metrics-table frequency of the
course's (upper-cased) type, defaulting to 1. -/
def requiredClasses (inp : SchedInput) : Nat :=
  inp.groups.foldl
    (fun acc g =>
      g.courses.foldl
        (fun acc cid =>
          let base := stripInstanceSuffix cid
          let ctype := asciiUpper
            (match inp.courses.find? (fun c => c.id = base) with
             | some c => c.type
             | none => "UNKNOWN")
          acc + ((metricsFreq.find? (fun p => p.1 = ctype)).map (·.2)).getD 1)
        acc)
    0

/-! ### Concrete instances used by the counterexamples -/

/-- One group, one PR course, one slot, two teachers of which only `T1`
handles `C1`. -/
def inpC1 : SchedInput :=
  ⟨[⟨"C1", "PR", 1⟩],
   [⟨"T1", ["C1"]⟩, ⟨"T2", []⟩],
   [⟨"R1", "Classroom"⟩],
   [⟨"TS1", "Mon", 0⟩],
   [⟨"G1", ["C1"]⟩]⟩

def sigmaC1 : List PlaceVar := [⟨"G1", "C1_1", "TS1", "T1", "R1"⟩]

/-- Stream for `inpC1`: nine neutral generations, then in the last
generation the first offspring's teacher gene is resampled to `T2`. -/
def c1stream (n : Nat) : Nat :=
  if n < 810 then (if n % 90 < 60 then 0 else 999)
  else if n < 870 then 0
  else if n < 880 then 999
  else if n = 880 then 0
  else if n = 881 then 0
  else if n = 882 then 1
  else if n = 883 then 1
  else 999

/-- One group requiring `C1`, which no teacher handles. -/
def inpC3 : SchedInput :=
  ⟨[⟨"C1", "TH", 1⟩],
   [⟨"T1", []⟩],
   [⟨"R1", "Classroom"⟩],
   [⟨"TS1", "Mon", 0⟩],
   [⟨"G1", ["C1"]⟩]⟩

def zeroStream (_ : Nat) : Nat := 0

/-- One group, one duration-2 PR course, two consecutive Monday slots and a
lone Tuesday slot. -/
def inpC4 : SchedInput :=
  ⟨[⟨"C1", "PR", 2⟩],
   [⟨"T1", ["C1"]⟩],
   [⟨"R1", "Classroom"⟩],
   [⟨"TS1", "Mon", 0⟩, ⟨"TS2", "Mon", 1⟩, ⟨"TS3", "Tue", 2⟩],
   [⟨"G1", ["C1"]⟩]⟩

def sigmaC4 : List PlaceVar := [⟨"G1", "C1_1", "TS1_TS2", "T1", "R1"⟩]

/-- Stream for `inpC4`: nine neutral generations, then every offspring's
start-slot gene is resampled to the mid-day slot `TS2`, where a duration-2
session no longer fits. -/
def c4stream (n : Nat) : Nat :=
  if n < 810 then (if n % 90 < 60 then 0 else 999)
  else if n < 870 then 0
  else if n < 880 then 999
  else if n < 960 then (if (n - 880) % 4 = 3 then 1 else 0)
  else 999

/-- A stream on which nothing is ever crossed over or mutated. -/
def idleStream (_ : Nat) : Nat := 999

/-- Rooms `R1` (classroom) then `R2` (lab): the fallback branch fires on
`R1` before the lab room is seen. -/
def inpC2 : SchedInput :=
  ⟨[], [], [⟨"R1", "Classroom"⟩, ⟨"R2", "Lab"⟩], [], []⟩

/-- Two classrooms and no lab at all. -/
def inpC2b : SchedInput :=
  ⟨[], [], [⟨"R1", "Classroom"⟩, ⟨"R2", "Classroom"⟩], [], []⟩

/-- A course of unknown type "SEM" required by one group. -/
def inpC10 : SchedInput :=
  ⟨[⟨"CX", "SEM", 1⟩],
   [⟨"T1", ["CX"]⟩],
   [⟨"R1", "Classroom"⟩],
   [⟨"TS1", "Mon", 0⟩],
   [⟨"GX", ["CX"]⟩]⟩

/-- One group whose single course is of type PR. -/
def inpC5 : SchedInput :=
  ⟨[⟨"C1", "PR", 1⟩],
   [⟨"T1", ["C1"]⟩],
   [⟨"R1", "Classroom"⟩],
   [⟨"TS1", "Mon", 0⟩],
   [⟨"G1", ["C1"]⟩]⟩

/-! ### Claim-side definitions -/

/-- Teacher eligibility of a whole schedule, as claimed: every assignment's
teacher lists the assignment's course id in `courses_handled`. -/
def teacherEligibleB (inp : SchedInput) (s : Schedule) : Bool :=
  s.all (fun g =>
    g.2.all (fun p => (findTeacherD inp p.2.teacher).courses_handled.contains p.2.course_id))

def hasUnderscore (s : String) : Bool := s.data.any (fun c => c = '_')

/-- The group's course ids sorted ascending, invalid ids dropped, resolved. -/
def validSortedCourses (inp : SchedInput) (g : Group) : List Course :=
  ((sortStr g.courses).filter (fun cid => (courseIds inp).contains cid)).map
    (findCourseD inp)

/-- The canonical sessions of one group: courses ascending, instances
`1 … frequency`. -/
def groupSessions (inp : SchedInput) (g : Group) : List (Course × Nat) :=
  (validSortedCourses inp g).flatMap
    (fun c => (List.range (freqOf c.type)).map (fun i => (c, i + 1)))

/-- The canonical session order of the whole input: groups ascending by id,
then the group's sessions. -/
def allSessions (inp : SchedInput) : List (String × Course × Nat) :=
  (sortedGroups inp).flatMap (fun g => (groupSessions inp g).map (fun s => (g.id, s)))

/-- Written from the claim: the `k`-th session's three genes are reduced
modulo the timeslot, teacher and room counts; the session is assigned to
`duration` consecutive slots of the chosen slot's day starting at that
slot, and emits no entry exactly when fewer than `duration` consecutive
slots remain in that day from the chosen start slot. -/
def specSessionEntries (inp : SchedInput) (ind : List Int) (k : Nat) (c : Course)
    (inst : Nat) : GroupSched :=
  let tIdx := ((ind.getD (3 * k) 0).emod ((timeslotIds inp).length : Int)).toNat
  let teIdx := ((ind.getD (3 * k + 1) 0).emod ((teacherIds inp).length : Int)).toNat
  let rIdx := ((ind.getD (3 * k + 2) 0).emod ((roomIds inp).length : Int)).toNat
  let tsId := (timeslotIds inp).getD tIdx ""
  let dayIds := daySlotIds inp ((findTimeslotD inp tsId).day)
  let p := dayIds.findIdx (fun x => x = tsId)
  if dayIds.length < p + c.duration then []
  else
    (List.range c.duration).map (fun j =>
      (partKey (c.id ++ "_" ++ toString inst) c.duration j,
       ⟨dayIds.getD (p + j) "", (teacherIds inp).getD teIdx "",
        (roomIds inp).getD rIdx "", c.id⟩))

/-- Write a list of entries into a group dictionary in order. -/
def specApply (m : GroupSched) (l : GroupSched) : GroupSched :=
  l.foldl (fun m p => insertEntry m p.1 p.2) m

/-- Fold the claim-side decoding over a session list, threading the global
session counter. -/
def specFoldSessions (inp : SchedInput) (ind : List Int) (l : List (Course × Nat))
    (st : Nat × GroupSched) : Nat × GroupSched :=
  l.foldl
    (fun st s => (st.1 + 1, specApply st.2 (specSessionEntries inp ind st.1 s.1 s.2)))
    st

/-- The decoded schedule as described by the claim: for each group in
ascending order, decode its canonical sessions at their global session
numbers. -/
def decodeSpec (inp : SchedInput) (ind : List Int) : Schedule :=
  ((sortedGroups inp).foldl
    (fun st g =>
      let r := specFoldSessions inp ind (groupSessions inp g) (st.1, [])
      (r.1, st.2 ++ [(g.id, r.2)]))
    (0, ([] : Schedule))).2

/-- Written from the claim: the number of empty slotIndex positions between
a group's occupied slotIndex values — the integers between the least and
greatest occupied value that are not themselves occupied. -/
def specGroupGaps (vals : List Int) : Int :=
  match vals with
  | [] => 0
  | v :: vs =>
    (((Finset.Icc (vs.foldl min v) (vs.foldl max v)).filter
      (fun x => ¬ x ∈ v :: vs)).card : Int)

/-- The claim's total gap count: the sum over the groups of the schedule. -/
def specTotalGaps (inp : SchedInput) (sched : Schedule) : Int :=
  (groupIds inp).foldl
    (fun acc gid =>
      match sched.find? (fun p => p.1 = gid) with
      | none => acc
      | some p => acc + specGroupGaps (groupSlotIndices inp p.2))
    0

/-! ### Literal intermediate states of the three concrete GA runs -/

def c1pop : List Indiv := List.replicate 20 ⟨[0, 0, 0], some ⟨100000, 1000⟩⟩

def c1popF : List Indiv :=
  ⟨[0, 1, 0], some ⟨100000, 1000⟩⟩ :: List.replicate 19 ⟨[0, 0, 0], some ⟨100000, 1000⟩⟩

def c4pop : List Indiv := List.replicate 20 ⟨[0, 0, 0], some ⟨376000, 4000⟩⟩

def c4popF : List Indiv := List.replicate 20 ⟨[1, 0, 0], some ⟨30000, 1000⟩⟩

/-! ## Theorems

First the literal evaluation of the three concrete GA runs, one
generation at a time. -/

set_option maxRecDepth 400000

theorem initC1 : initialPop inpC1 (extractSchedule inpC1 sigmaC1) = c1pop := by decide

theorem initC4 : initialPop inpC4 (extractSchedule inpC4 sigmaC4) = c4pop := by decide

theorem gsC1g0 : generationStep inpC1 c1stream (c1pop, 0) = (c1pop, 90) := by decide
theorem gsC1g1 : generationStep inpC1 c1stream (c1pop, 90) = (c1pop, 180) := by decide
theorem gsC1g2 : generationStep inpC1 c1stream (c1pop, 180) = (c1pop, 270) := by decide
theorem gsC1g3 : generationStep inpC1 c1stream (c1pop, 270) = (c1pop, 360) := by decide
theorem gsC1g4 : generationStep inpC1 c1stream (c1pop, 360) = (c1pop, 450) := by decide
theorem gsC1g5 : generationStep inpC1 c1stream (c1pop, 450) = (c1pop, 540) := by decide
theorem gsC1g6 : generationStep inpC1 c1stream (c1pop, 540) = (c1pop, 630) := by decide
theorem gsC1g7 : generationStep inpC1 c1stream (c1pop, 630) = (c1pop, 720) := by decide
theorem gsC1g8 : generationStep inpC1 c1stream (c1pop, 720) = (c1pop, 810) := by decide
theorem gsC1g9 : generationStep inpC1 c1stream (c1pop, 810) = (c1popF, 903) := by decide
theorem gsC4g0 : generationStep inpC4 c4stream (c4pop, 0) = (c4pop, 90) := by decide
theorem gsC4g1 : generationStep inpC4 c4stream (c4pop, 90) = (c4pop, 180) := by decide
theorem gsC4g2 : generationStep inpC4 c4stream (c4pop, 180) = (c4pop, 270) := by decide
theorem gsC4g3 : generationStep inpC4 c4stream (c4pop, 270) = (c4pop, 360) := by decide
theorem gsC4g4 : generationStep inpC4 c4stream (c4pop, 360) = (c4pop, 450) := by decide
theorem gsC4g5 : generationStep inpC4 c4stream (c4pop, 450) = (c4pop, 540) := by decide
theorem gsC4g6 : generationStep inpC4 c4stream (c4pop, 540) = (c4pop, 630) := by decide
theorem gsC4g7 : generationStep inpC4 c4stream (c4pop, 630) = (c4pop, 720) := by decide
theorem gsC4g8 : generationStep inpC4 c4stream (c4pop, 720) = (c4pop, 810) := by decide
theorem gsC4g9 : generationStep inpC4 c4stream (c4pop, 810) = (c4popF, 960) := by decide
theorem gsI4g0 : generationStep inpC4 idleStream (c4pop, 0) = (c4pop, 90) := by decide
theorem gsI4g1 : generationStep inpC4 idleStream (c4pop, 90) = (c4pop, 180) := by decide
theorem gsI4g2 : generationStep inpC4 idleStream (c4pop, 180) = (c4pop, 270) := by decide
theorem gsI4g3 : generationStep inpC4 idleStream (c4pop, 270) = (c4pop, 360) := by decide
theorem gsI4g4 : generationStep inpC4 idleStream (c4pop, 360) = (c4pop, 450) := by decide
theorem gsI4g5 : generationStep inpC4 idleStream (c4pop, 450) = (c4pop, 540) := by decide
theorem gsI4g6 : generationStep inpC4 idleStream (c4pop, 540) = (c4pop, 630) := by decide
theorem gsI4g7 : generationStep inpC4 idleStream (c4pop, 630) = (c4pop, 720) := by decide
theorem gsI4g8 : generationStep inpC4 idleStream (c4pop, 720) = (c4pop, 810) := by decide
theorem gsI4g9 : generationStep inpC4 idleStream (c4pop, 810) = (c4pop, 900) := by decide

theorem rangeTen : List.range 10 = [0, 1, 2, 3, 4, 5, 6, 7, 8, 9] := by decide

theorem finalC1 :
    finalState inpC1 (extractSchedule inpC1 sigmaC1) c1stream = (c1popF, 903) := by
  simp only [finalState, initC1, rangeTen, List.foldl_cons, List.foldl_nil]
  rw [gsC1g0, gsC1g1, gsC1g2, gsC1g3, gsC1g4, gsC1g5, gsC1g6, gsC1g7, gsC1g8, gsC1g9]

theorem finalC4 :
    finalState inpC4 (extractSchedule inpC4 sigmaC4) c4stream = (c4popF, 960) := by
  simp only [finalState, initC4, rangeTen, List.foldl_cons, List.foldl_nil]
  rw [gsC4g0, gsC4g1, gsC4g2, gsC4g3, gsC4g4, gsC4g5, gsC4g6, gsC4g7, gsC4g8, gsC4g9]

theorem finalI4 :
    finalState inpC4 (extractSchedule inpC4 sigmaC4) idleStream = (c4pop, 900) := by
  simp only [finalState, initC4, rangeTen, List.foldl_cons, List.foldl_nil]
  rw [gsI4g0, gsI4g1, gsI4g2, gsI4g3, gsI4g4, gsI4g5, gsI4g6, gsI4g7, gsI4g8, gsI4g9]

/-! ## Claim theorems (concrete claims) -/

/-- C1, counterexample.  A complete run of `generate_schedule` on `inpC1`:
the CP stage's assignment `sigmaC1` satisfies every generated constraint,
yet the schedule returned after the evolutionary stage assigns course `C1`
to teacher `T2`, whose `courses_handled` does not contain `C1` — the
mutation operator resampled the teacher gene over all teachers and the
decoder performs no eligibility check.  This refutes the claim that every
returned schedule uses an eligible teacher. -/
theorem C1_counterexample :
    satisfies (modelConstraints inpC1) sigmaC1 = true
    ∧ generateSchedule inpC1 (some sigmaC1) c1stream
        = some [("G1", [("C1_1", ⟨"TS1", "T2", "R1", "C1"⟩)])]
    ∧ teacherEligibleB inpC1 [("G1", [("C1_1", ⟨"TS1", "T2", "R1", "C1"⟩)])] = false := by
  refine ⟨by decide, ?_, by decide⟩
  show some (optimizeSchedule inpC1 (extractSchedule inpC1 sigmaC1) c1stream) = _
  simp only [optimizeSchedule, finalC1]
  decide

/-- C2.  `_get_suitable_rooms` does not compute the claimed set: with a
classroom listed before the only lab room, the LAB result contains the
non-preferred classroom (the fallback branch fires inside the loop while
the list is still empty); and when no preferred-kind room exists the
result is the single first room rather than the set of all rooms. -/
theorem C2_rooms :
    preferredKindRooms inpC2 "LAB" = ["R2"]
    ∧ get_suitable_rooms inpC2 "LAB" = ["R1", "R2"]
    ∧ preferredKindRooms inpC2b "LAB" = []
    ∧ roomIds inpC2b = ["R1", "R2"]
    ∧ get_suitable_rooms inpC2b "LAB" = ["R1"] := by decide

/-- C3.  On `inpC3` the group requires course `C1` which no teacher
handles; the generated model then contains no variable and no constraint
at all, so the CP stage reports feasibility (the empty assignment
satisfies the empty constraint list) and the core returns a schedule in
which the group's dictionary is empty — the course's sessions are
silently omitted instead of an infeasibility error. -/
theorem C3_silent_omission :
    suitableTeachers inpC3 "C1" = []
    ∧ (findGroupD inpC3 "G1").courses = ["C1"]
    ∧ modelConstraints inpC3 = []
    ∧ satisfies (modelConstraints inpC3) [] = true
    ∧ generateSchedule inpC3 (some []) zeroStream = some [("G1", [])] := by
  refine ⟨by decide, by decide, by decide, by decide, by decide⟩

/-- C4, counterexample.  A complete run on `inpC4`: every individual of
the initial population has fitness 94, but in the last generation every
offspring is mutated onto a start slot where the duration-2 session no
longer fits, so the final population consists of fitness-30 individuals;
`selBest` only looks at the final population, hence the materialized
schedule is decoded from a fitness-30 individual although individuals of
strictly higher fitness existed in earlier generations.  This refutes the
claim that the best individual over all generations is materialized. -/
theorem C4_counterexample :
    satisfies (modelConstraints inpC4) sigmaC4 = true
    ∧ initialPop inpC4 (extractSchedule inpC4 sigmaC4) = c4pop
    ∧ c4pop.all (fun i => i.genes = [0, 0, 0] ∧ i.fit = some ⟨376000, 4000⟩) = true
    ∧ Frac.eqB ⟨376000, 4000⟩ (Frac.ofInt 94) = true
    ∧ (selBestFirst (finalState inpC4 (extractSchedule inpC4 sigmaC4) c4stream).1).genes
        = [1, 0, 0]
    ∧ Frac.eqB (evaluateF inpC4 [1, 0, 0]) (Frac.ofInt 30) = true
    ∧ Frac.ltB (Frac.ofInt 30) (Frac.ofInt 94) = true
    ∧ generateSchedule inpC4 (some sigmaC4) c4stream = some [("G1", [])]
    ∧ individualToSchedule inpC4 [0, 0, 0] ≠ [("G1", [])] := by
  refine ⟨by decide, initC4, by decide, by decide, ?_, by decide, by decide, ?_, by decide⟩
  · rw [finalC4]
    decide
  · show some (optimizeSchedule inpC4 (extractSchedule inpC4 sigmaC4) c4stream) = _
    simp only [optimizeSchedule, finalC4]
    decide

/-- C5.  The metrics module counts a PR course as 2 required sessions per
week (`{'TH': 3, 'PR': 2, 'LAB': 2, 'PROJECT': 1}`), while the scheduler
frequency table — and the claim — give PR weekly frequency 1: for the
group of `inpC5`, whose only course is of type PR, `required` is 2, not
1. -/
theorem C5_required :
    freqOf "PR" = 1
    ∧ ((metricsFreq.find? (fun p => p.1 = "PR")).map (fun p => p.2)).getD 1 = 2
    ∧ inpC5.groups.map (fun g => g.courses) = [["C1"]]
    ∧ (findCourseD inpC5 "C1").type = "PR"
    ∧ requiredClasses inpC5 = 2 := by decide

/-- C8.  `generate_schedule` takes no seed parameter and the module never
seeds the global generator, so a run is a function of the ambient random
stream: with identical input, identical solver outcome and default
hyperparameters, two admissible streams of the unseeded generator yield
different schedules (one returns the full schedule, the other drops the
session).  Byte-identical output for equal (input, seed, defaults) is
therefore not guaranteed by the code, seed-independently of the CP-SAT
caveat, because no seed exists. -/
theorem C8_no_seed :
    generateSchedule inpC4 (some sigmaC4) idleStream
      = some [("G1", [("C1_1_part1", ⟨"TS1", "T1", "R1", "C1"⟩),
                      ("C1_1_part2", ⟨"TS2", "T1", "R1", "C1"⟩)])]
    ∧ generateSchedule inpC4 (some sigmaC4) c4stream = some [("G1", [])]
    ∧ generateSchedule inpC4 (some sigmaC4) idleStream
        ≠ generateSchedule inpC4 (some sigmaC4) c4stream := by
  have h1 : generateSchedule inpC4 (some sigmaC4) idleStream
      = some [("G1", [("C1_1_part1", ⟨"TS1", "T1", "R1", "C1"⟩),
                      ("C1_1_part2", ⟨"TS2", "T1", "R1", "C1"⟩)])] := by
    show some (optimizeSchedule inpC4 (extractSchedule inpC4 sigmaC4) idleStream) = _
    simp only [optimizeSchedule, finalI4]
    decide
  have h2 : generateSchedule inpC4 (some sigmaC4) c4stream = some [("G1", [])] := by
    show some (optimizeSchedule inpC4 (extractSchedule inpC4 sigmaC4) c4stream) = _
    simp only [optimizeSchedule, finalC4]
    decide
  refine ⟨h1, h2, ?_⟩
  rw [h1, h2]
  decide

/-! ## Generic list lemmas -/

theorem insById_perm {α : Type} (le : α → α → Bool) (a : α) (l : List α) :
    (insById le a l).Perm (a :: l) := by
  induction l with
  | nil => simp [insById]
  | cons b t ih =>
    simp only [insById]
    split
    · exact List.Perm.refl _
    · exact (ih.cons b).trans (List.Perm.swap' a b (List.Perm.refl t))

theorem isort_perm {α : Type} (le : α → α → Bool) (l : List α) :
    (isort le l).Perm l := by
  induction l with
  | nil => exact List.Perm.refl _
  | cons x xs ih => exact (insById_perm le x (isort le xs)).trans (ih.cons x)

theorem filter_flatMap_nil {α β : Type} (f : α → List β) (p : β → Bool) :
    ∀ (l : List α), (∀ a ∈ l, (f a).filter p = []) → (l.flatMap f).filter p = [] := by
  intro l
  induction l with
  | nil => intro _; rfl
  | cons a t ih =>
    intro h
    rw [List.flatMap_cons, List.filter_append, h a (List.mem_cons_self a t),
      ih (fun b hb => h b (List.mem_cons_of_mem a hb))]
    rfl

theorem filter_flatMap_unique {α β : Type} (f : α → List β) (p : β → Bool) :
    ∀ (l : List α) (x : α), x ∈ l → l.Nodup →
      (∀ a ∈ l, a ≠ x → (f a).filter p = []) →
      (l.flatMap f).filter p = (f x).filter p := by
  intro l
  induction l with
  | nil => intro x hx; cases hx
  | cons a t ih =>
    intro x hx hnd hnil
    obtain ⟨hat, hndt⟩ := List.nodup_cons.mp hnd
    rw [List.flatMap_cons, List.filter_append]
    rcases List.mem_cons.mp hx with rfl | hxt
    · rw [filter_flatMap_nil f p t (fun b hb => hnil b (List.mem_cons_of_mem x hb)
        (fun hbx => hat (hbx ▸ hb))), List.append_nil]
    · rw [hnil a (List.mem_cons_self a t) (fun hax => hat (hax ▸ hxt)), List.nil_append]
      exact ih x hxt hndt (fun b hb hbx => hnil b (List.mem_cons_of_mem a hb) hbx)

/-- C9.  One application of `_mutate` preserves the genome's length and
changes at most one gene position — every position other than the chosen
one keeps its original value — and a genome shorter than 3 genes is
returned completely unchanged, for every input, stream and position. -/
theorem C9_mutation_frame (inp : SchedInput) (g : List Int) (stream : Nat → Nat)
    (pos : Nat) :
    (mutateGenes inp g stream pos).1.length = g.length
    ∧ (g.length < 3 → (mutateGenes inp g stream pos).1 = g)
    ∧ ∃ p : Nat, ∀ j : Nat, j ≠ p → (mutateGenes inp g stream pos).1[j]? = g[j]? := by
  have key : ∀ (q : Nat) (v : Int), (g.set q v).length = g.length
      ∧ ∃ p : Nat, ∀ j : Nat, j ≠ p → (g.set q v)[j]? = g[j]? := by
    intro q v
    exact ⟨List.length_set .., q, fun j hj => List.getElem?_set_ne (fun h => hj h.symm)⟩
  by_cases h3 : 3 ≤ g.length
  · have hnot : ¬ g.length < 3 := by omega
    simp only [mutateGenes, if_pos h3]
    split
    · exact ⟨(key _ _).1, fun h => absurd h hnot, (key _ _).2⟩
    · split
      · exact ⟨(key _ _).1, fun h => absurd h hnot, (key _ _).2⟩
      · exact ⟨(key _ _).1, fun h => absurd h hnot, (key _ _).2⟩
  · simp only [mutateGenes, if_neg h3]
    exact ⟨trivial, fun _ => trivial, 0, fun _ _ => trivial⟩

/-- Witness for C9 at a concrete genome. -/
theorem C9_mutation_frame_witness :
    (mutateGenes inpC1 [5, 6, 7] zeroStream 0).1.length = ([5, 6, 7] : List Int).length
    ∧ (∃ p : Nat, ∀ j : Nat, j ≠ p →
        (mutateGenes inpC1 [5, 6, 7] zeroStream 0).1[j]? = ([5, 6, 7] : List Int)[j]?) :=
  ⟨(C9_mutation_frame inpC1 [5, 6, 7] zeroStream 0).1,
   (C9_mutation_frame inpC1 [5, 6, 7] zeroStream 0).2.2⟩

/-- The course found for a listed id carries that id. -/
theorem findCourseD_id (inp : SchedInput) (x : String)
    (hx : (courseIds inp).contains x = true) : (findCourseD inp x).id = x := by
  have hex : ∃ co ∈ inp.courses, co.id = x := by
    simpa [courseIds, List.contains_iff_exists_mem_beq] using hx
  obtain ⟨co, hco, hcoid⟩ := hex
  have hsome : (inp.courses.find? (fun c => c.id = x)).isSome :=
    List.find?_isSome.mpr ⟨co, hco, by simp [hcoid]⟩
  obtain ⟨c0, hc0⟩ := Option.isSome_iff_exists.mp hsome
  have := List.find?_some hc0
  simp only [decide_eq_true_eq] at this
  simp [findCourseD, hc0, this]

/-- C10.  A course whose type string is none of TH, LAB, PROJECT, PR gets
weekly frequency 1 from `course_type_frequency.get(t, 1)`, and for any
group listing the course (without duplicates) both the feasibility
enumeration and the canonical decoding session list create exactly one
instance, with instance key `<courseId>_1`. -/
theorem C10_unknown_type (inp : SchedInput) (g : Group) (cid : String)
    (hm : ¬ (findCourseD inp cid).type ∈ (["TH", "LAB", "PROJECT", "PR"] : List String))
    (hg : cid ∈ g.courses) (hnd : g.courses.Nodup)
    (hv : (courseIds inp).contains cid = true) :
    freqOf (findCourseD inp cid).type = 1
    ∧ (instancesOfGroup inp g).filter (fun p => p.1 = cid) = [(cid, cid ++ "_1")]
    ∧ (groupSessions inp g).filter (fun s => s.1.id = cid)
        = [(findCourseD inp cid, 1)] := by
  have hfr : freqOf (findCourseD inp cid).type = 1 := by
    have h1 : ¬ ((("TH" : String), (3 : Nat)).1 = (findCourseD inp cid).type) := by
      intro h; exact hm (by simp [← h])
    have h2 : ¬ ((("LAB" : String), (2 : Nat)).1 = (findCourseD inp cid).type) := by
      intro h; exact hm (by simp [← h])
    have h3 : ¬ ((("PROJECT" : String), (1 : Nat)).1 = (findCourseD inp cid).type) := by
      intro h; exact hm (by simp [← h])
    have h4 : ¬ ((("PR" : String), (1 : Nat)).1 = (findCourseD inp cid).type) := by
      intro h; exact hm (by simp [← h])
    simp [freqOf, course_type_frequency, List.find?, h1, h2, h3, h4]
  have hcid : (findCourseD inp cid).id = cid := findCourseD_id inp cid hv
  refine ⟨hfr, ?_, ?_⟩
  · have hone : (instancesOfGroup inp g).filter (fun p => p.1 = cid)
        = (if (courseIds inp).contains cid = true then
            (List.range (freqOf ((findCourseD inp cid).type))).map
              (fun i => (cid, cid ++ "_" ++ toString (i + 1)))
          else []).filter (fun p => p.1 = cid) := by
      refine filter_flatMap_unique _ _ g.courses cid hg hnd ?_
      intro a _ hax
      by_cases hca : (courseIds inp).contains a = true
      · simp only [if_pos hca, List.filter_map]
        have hnone : ∀ i ∈ List.range (freqOf ((findCourseD inp a).type)),
            ¬ (((fun p : String × String => decide (p.1 = cid)) ∘
              fun i => (a, a ++ "_" ++ toString (i + 1))) i = true) := by
          intro i _ hcontra
          simp only [Function.comp, decide_eq_true_eq] at hcontra
          exact hax hcontra
        rw [List.filter_eq_nil_iff.mpr hnone]
        rfl
      · simp only [if_neg hca, List.filter_nil]
    rw [hone, if_pos hv, hfr]
    have h1 : toString (0 + 1) = ("1" : String) := rfl
    have h2 : cid ++ "_" ++ "1" = cid ++ "_1" := String.append_assoc ..
    simp [List.range_succ, h1, h2]
  · have hone : (groupSessions inp g).filter (fun s => s.1.id = cid)
        = ((List.range (freqOf ((findCourseD inp cid).type))).map
            (fun i => (findCourseD inp cid, i + 1))).filter (fun s => s.1.id = cid) := by
      have hmemsort : cid ∈ sortStr g.courses := (isort_perm strLe g.courses).mem_iff.mpr hg
      have hndsort : (sortStr g.courses).Nodup := (isort_perm strLe g.courses).nodup_iff.mpr hnd
      have hmemf : cid ∈ (sortStr g.courses).filter (fun c => (courseIds inp).contains c) :=
        List.mem_filter.mpr ⟨hmemsort, hv⟩
      have hndf : ((sortStr g.courses).filter (fun c => (courseIds inp).contains c)).Nodup :=
        hndsort.filter _
      have hndmap : (((sortStr g.courses).filter
          (fun c => (courseIds inp).contains c)).map (findCourseD inp)).Nodup := by
        refine (List.nodup_map_iff_inj_on hndf).mpr ?_
        intro a ha b hb hab
        have hca : (courseIds inp).contains a = true := by
          simpa using (List.mem_filter.mp ha).2
        have hcb : (courseIds inp).contains b = true := by
          simpa using (List.mem_filter.mp hb).2
        rw [← findCourseD_id inp a hca, ← findCourseD_id inp b hcb, hab]
      refine filter_flatMap_unique
        (fun co => (List.range (freqOf co.type)).map (fun i => (co, i + 1)))
        (fun s => s.1.id = cid)
        (((sortStr g.courses).filter (fun c => (courseIds inp).contains c)).map
          (findCourseD inp))
        (findCourseD inp cid)
        (List.mem_map_of_mem _ hmemf) hndmap ?_
      intro co hco hne
      refine List.filter_eq_nil_iff.mpr ?_
      intro s hs
      obtain ⟨i, _, rfl⟩ := List.mem_map.mp hs
      simp only [decide_eq_true_eq]
      intro hid
      obtain ⟨a, haf, rfl⟩ := List.mem_map.mp hco
      have hcaa : (courseIds inp).contains a = true := by
        simpa using (List.mem_filter.mp haf).2
      have : a = cid := by rw [← findCourseD_id inp a hcaa]; exact hid
      exact hne (by rw [this])
    rw [hone, hfr]
    simp [List.range_succ, hcid]

/-- Witness for C10 at a concrete unknown-typed course. -/
theorem C10_unknown_type_witness :
    freqOf (findCourseD inpC10 "CX").type = 1
    ∧ (instancesOfGroup inpC10 ⟨"GX", ["CX"]⟩).filter (fun p => p.1 = "CX")
        = [("CX", "CX" ++ "_1")]
    ∧ (groupSessions inpC10 ⟨"GX", ["CX"]⟩).filter (fun s => s.1.id = "CX")
        = [(findCourseD inpC10 "CX", 1)] :=
  C10_unknown_type inpC10 ⟨"GX", ["CX"]⟩ "CX" (by decide) (by decide) (by decide) (by decide)

/-! ## Eligibility of the feasibility-stage schedule (amended C1) -/

theorem insertEntry_all (P : String × Entry → Bool) (m : GroupSched) (k : String)
    (e : Entry) (hm : m.all P = true) (he : P (k, e) = true) :
    (insertEntry m k e).all P = true := by
  unfold insertEntry
  split
  · rw [List.all_eq_true] at hm ⊢
    intro x hx
    obtain ⟨p, hp, rfl⟩ := List.mem_map.mp hx
    by_cases hpk : p.1 = k
    · simpa [hpk] using he
    · simpa [hpk] using hm p hp
  · rw [List.all_eq_true] at hm ⊢
    intro x hx
    rcases List.mem_append.mp hx with h | h
    · exact hm x h
    · rw [List.mem_singleton.mp h]; exact he

theorem firstField_append (s t : String) (h : hasUnderscore s = false) :
    firstField (s ++ "_" ++ t) = s := by
  have hall : ∀ ch ∈ s.data, ¬ ch = '_' := by
    intro ch hch heq
    have : s.data.any (fun c => c = '_') = true := by
      rw [List.any_eq_true]; exact ⟨ch, hch, by simp [heq]⟩
    rw [hasUnderscore] at h
    rw [h] at this
    cases this
  have hd : (s ++ "_" ++ t).data = s.data ++ '_' :: t.data := by
    rw [String.data_append, String.data_append, List.append_assoc]
    rfl
  have htake : ∀ l : List Char, (∀ ch ∈ l, ¬ ch = '_') →
      (l ++ '_' :: t.data).takeWhile (fun c => ¬ c = '_') = l := by
    intro l
    induction l with
    | nil => intro _; simp [List.takeWhile_cons]
    | cons a u ih =>
      intro hl
      rw [List.cons_append, List.takeWhile_cons]
      have : (fun c => decide ¬ c = '_') a = true := by
        simp [hl a (List.mem_cons_self a u)]
      simp only [this, if_true]
      rw [ih (fun ch hch => hl ch (List.mem_cons_of_mem a hch))]
  unfold firstField
  rw [hd, htake s.data hall]

theorem mem_varsForInstance (inp : SchedInput) (gid cid ik : String) (v : PlaceVar)
    (h : v ∈ varsForInstance inp gid cid ik) :
    (findTeacherD inp v.teacher).courses_handled.contains cid = true := by
  unfold varsForInstance at h
  simp only [List.mem_flatMap, List.mem_map] at h
  obtain ⟨day, _, w, _, t, ht, rm, _, rfl⟩ := h
  have := (List.mem_filter.mp ht).2
  simpa [suitableTeachers] using this

theorem mem_instancesOfGroup (inp : SchedInput) (g : Group) (q : String × String)
    (h : q ∈ instancesOfGroup inp g) :
    (courseIds inp).contains q.1 = true
    ∧ ∃ i : Nat, q.2 = q.1 ++ "_" ++ toString (i + 1) := by
  unfold instancesOfGroup at h
  simp only [List.mem_flatMap] at h
  obtain ⟨cid0, _, h2⟩ := h
  by_cases hc : (courseIds inp).contains cid0 = true
  · rw [if_pos hc] at h2
    obtain ⟨i, _, rfl⟩ := List.mem_map.mp h2
    exact ⟨hc, i, rfl⟩
  · rw [if_neg hc] at h2
    cases h2

theorem foldl_inv {α β : Type} (C : β → Prop) :
    ∀ (l : List α) (f : β → α → β) (b : β), C b →
      (∀ x, C x → ∀ a ∈ l, C (f x a)) → C (l.foldl f b) := by
  intro l
  induction l with
  | nil => intro f b hb _; exact hb
  | cons a t ih =>
    intro f b hb hstep
    exact ih f (f b a) (hstep b hb a (List.mem_cons_self a t))
      (fun x hx a2 ha2 => hstep x hx a2 (List.mem_cons_of_mem a ha2))

theorem mem_foldl_append {α β : Type} (f : α → β) :
    ∀ (l : List α) (acc : List β) (x : β),
      x ∈ l.foldl (fun acc a => acc ++ [f a]) acc → x ∈ acc ∨ ∃ a ∈ l, x = f a := by
  intro l
  induction l with
  | nil => intro acc x hx; exact Or.inl hx
  | cons a t ih =>
    intro acc x hx
    rcases ih (acc ++ [f a]) x hx with hin | ⟨b, hb, rfl⟩
    · rcases List.mem_append.mp hin with h | h
      · exact Or.inl h
      · exact Or.inr ⟨a, List.mem_cons_self a t, (List.mem_singleton.mp h) ▸ rfl⟩
    · exact Or.inr ⟨b, List.mem_cons_of_mem a hb, rfl⟩

/-- C1, amended.  Every assignment of the schedule extracted from any
solver assignment of the feasibility stage uses a teacher whose
`courses_handled` contains the assignment's course id (course ids free of
underscores, as the extraction recovers the course id from the instance
key by splitting on underscores).  The returned schedule after the GA
need not satisfy this, as `C1_counterexample` shows. -/
theorem C1_feasible_eligible (inp : SchedInput) (σ : List PlaceVar)
    (hu : ∀ co ∈ inp.courses, hasUnderscore co.id = false) :
    teacherEligibleB inp (extractSchedule inp σ) = true := by
  have hufromc : ∀ cid : String, (courseIds inp).contains cid = true →
      hasUnderscore cid = false := by
    intro cid hc
    have hex : ∃ co ∈ inp.courses, co.id = cid := by
      simpa [courseIds, List.contains_iff_exists_mem_beq] using hc
    obtain ⟨co, hco, rfl⟩ := hex
    exact hu co hco
  set P : String × Entry → Bool :=
    fun pr => (findTeacherD inp pr.2.teacher).courses_handled.contains pr.2.course_id
    with hP
  unfold teacherEligibleB extractSchedule
  rw [List.all_eq_true]
  intro gp hgp
  rcases mem_foldl_append _ inp.groups [] gp hgp with hin | ⟨g, _, rfl⟩
  · cases hin
  change (List.foldl _ ([] : GroupSched) (instancesOfGroup inp g)).all P = true
  refine foldl_inv (fun m : GroupSched => m.all P = true) _ _ _ rfl ?_
  intro m hm q hq
  obtain ⟨hc, i, hik⟩ := mem_instancesOfGroup inp g q hq
  have hder : firstField q.2 = q.1 := by
    rw [hik]; exact firstField_append q.1 (toString (i + 1)) (hufromc q.1 hc)
  change (List.foldl _ m (varsForInstance inp g.id q.1 q.2)).all P = true
  refine foldl_inv (fun m : GroupSched => m.all P = true) _ _ _ hm ?_
  intro m2 hm2 v hv
  change (if σ.contains v = true then
      List.foldl _ m2 (splitU v.tsGroupId).enum else m2).all P = true
  split
  · refine foldl_inv (fun m : GroupSched => m.all P = true) _ _ _ hm2 ?_
    intro m3 hm3 pr _
    refine insertEntry_all P m3 _ _ hm3 ?_
    show (findTeacherD inp v.teacher).courses_handled.contains (firstField q.2) = true
    rw [hder]
    exact mem_varsForInstance inp g.id q.1 q.2 v hv
  · exact hm2

/-- Witness for the amended C1 at the concrete instance of the
counterexample. -/
theorem C1_feasible_eligible_witness :
    teacherEligibleB inpC1 (extractSchedule inpC1 sigmaC1) = true :=
  C1_feasible_eligible inpC1 sigmaC1 (by decide)

/-! ## The optimizer materializes a best individual of the final
population (amended C4) -/

theorem Frac.den_add (a b : Frac) : (Frac.add a b).den = a.den * b.den := rfl

theorem Frac.den_sub (a b : Frac) : (Frac.sub a b).den = a.den * b.den := rfl

theorem Frac.den_mul (a b : Frac) : (Frac.mul a b).den = a.den * b.den := rfl

theorem Frac.den_div (a b : Frac) : (Frac.div a b).den = a.den * b.num := rfl

theorem Frac.den_fabs (a : Frac) : (Frac.fabs a).den = |a.den| := rfl

theorem Frac.den_ofInt (n : Int) : (Frac.ofInt n).den = 1 := rfl

theorem Frac.num_ofInt (n : Int) : (Frac.ofInt n).num = n := rfl

theorem Frac.den_fmax_pos (a b : Frac) (ha : 0 < a.den) (hb : 0 < b.den) :
    0 < (Frac.fmax a b).den := by
  rw [Frac.fmax]
  split
  · exact hb
  · exact ha

theorem ltB_iff_toRat (a b : Frac) (ha : 0 < a.den) (hb : 0 < b.den) :
    Frac.ltB a b = true ↔ a.toRat < b.toRat := by
  rw [Frac.ltB, decide_eq_true_eq, Frac.toRat, Frac.toRat,
    div_lt_div_iff (by exact_mod_cast ha) (by exact_mod_cast hb)]
  constructor
  · intro h; exact_mod_cast h
  · intro h; exact_mod_cast h

theorem daySlotIds_of_no_timeslots (inp : SchedInput) (day : String)
    (ht : inp.timeslots = []) : daySlotIds inp day = [] := by
  rw [daySlotIds, timeslotIds, ht]
  rfl

theorem decodeEmit_of_no_timeslots (inp : SchedInput) (c : Course) (ik : String)
    (a b r : Nat) (m : GroupSched) (ht : inp.timeslots = []) :
    decodeEmit inp c ik a b r m = m := by
  rw [decodeEmit, daySlotIds_of_no_timeslots inp _ ht]
  split
  · simp [List.drop_nil, List.take_nil]
  · rfl

theorem decodeCourse_snd_of_no_timeslots (inp : SchedInput) (ind : List Int)
    (c : Course) (st : Nat × GroupSched) (ht : inp.timeslots = []) :
    (decodeCourse inp ind c st).2 = st.2 := by
  rw [decodeCourse]
  refine foldl_inv (fun s : Nat × GroupSched => s.2 = st.2) _ _ _ rfl ?_
  intro x hx i _
  split
  · change (decodeEmit inp c _ _ _ _ x.2) = st.2
    rw [decodeEmit_of_no_timeslots inp c _ _ _ _ x.2 ht]
    exact hx
  · exact hx

theorem decodeGroup_snd_of_no_timeslots (inp : SchedInput) (ind : List Int)
    (g : Group) (idx : Nat) (ht : inp.timeslots = []) :
    (decodeGroup inp ind g idx).2 = [] := by
  rw [decodeGroup]
  refine foldl_inv (fun s : Nat × GroupSched => s.2 = []) _ _ _ rfl ?_
  intro x hx cid _
  split
  · rw [decodeCourse_snd_of_no_timeslots inp ind _ x ht]
    exact hx
  · exact hx

theorem allEntries_of_empty_groups (s : Schedule) (h : ∀ p ∈ s, p.2 = []) :
    allEntries s = [] := by
  rw [allEntries]
  refine foldl_inv (fun l : List (String × Entry) => l = []) _ _ _ rfl ?_
  intro x hx p hp
  rw [hx, h p hp]
  rfl

theorem decode_no_timeslots (inp : SchedInput) (ind : List Int)
    (ht : inp.timeslots = []) :
    allEntries (individualToSchedule inp ind) = [] := by
  refine allEntries_of_empty_groups _ ?_
  intro p hp
  rw [individualToSchedule] at hp
  refine foldl_inv
    (fun st : Nat × Schedule => ∀ q ∈ st.2, q.2 = ([] : GroupSched))
    (sortedGroups inp) _ (0, ([] : Schedule))
    (by intro q hq; cases hq) ?_ p hp
  intro x hx g _ q hq
  rcases List.mem_append.mp hq with h1 | h1
  · exact hx q h1
  · rw [List.mem_singleton.mp h1]
    exact decodeGroup_snd_of_no_timeslots inp ind g x.1 ht

theorem evalWorkloadF_den_pos (s : Schedule) : 0 < (evalWorkloadF s).den := by
  simp only [evalWorkloadF]
  split
  · norm_num [Frac.den_ofInt]
  · rename_i hne
    have hlen : 0 < (((allEntries s).map (fun p => p.2.teacher)).dedup).length := by
      rw [List.length_pos]
      intro hnil
      exact hne (by rw [hnil]; rfl)
    refine Frac.den_fmax_pos _ _ (by norm_num [Frac.den_ofInt]) ?_
    rw [Frac.den_sub, Frac.den_mul, Frac.den_ofInt, Frac.den_ofInt, one_mul, mul_one]
    refine foldl_inv (fun f : Frac => 0 < f.den) _ _ _ (by norm_num [Frac.den_ofInt]) ?_
    intro x hx w _
    rw [Frac.den_add, Frac.den_fabs, Frac.den_sub, Frac.den_ofInt, Frac.den_div,
      Frac.den_ofInt, one_mul, one_mul]
    refine mul_pos hx ?_
    rw [abs_pos, Frac.num_ofInt]
    simp only [List.length_map]
    exact_mod_cast hlen.ne'

theorem evalDistributionF_den_pos (inp : SchedInput) (s : Schedule)
    (h : allEntries s = [] ∨ inp.timeslots ≠ []) :
    0 < (evalDistributionF inp s).den := by
  simp only [evalDistributionF]
  split
  · norm_num [Frac.den_ofInt]
  · rename_i hne
    have ht : inp.timeslots ≠ [] := by
      rcases h with he | ht
      · exact absurd (by rw [he]; rfl) hne
      · exact ht
    have hdl : 0 < (((timeslotIds inp).map
        (fun tsid => (findTimeslotD inp tsid).day)).dedup).length := by
      rw [List.length_pos, Ne, List.dedup_eq_nil, List.map_eq_nil_iff, timeslotIds,
        List.map_eq_nil_iff]
      exact ht
    refine Frac.den_fmax_pos _ _ (by norm_num [Frac.den_ofInt]) ?_
    rw [Frac.den_sub, Frac.den_mul, Frac.den_ofInt, Frac.den_ofInt, one_mul, mul_one]
    refine foldl_inv (fun f : Frac => 0 < f.den) _ _ _ (by norm_num [Frac.den_ofInt]) ?_
    intro x hx d _
    rw [Frac.den_add, Frac.den_fabs, Frac.den_sub, Frac.den_ofInt, Frac.den_div,
      Frac.den_ofInt, one_mul, one_mul]
    refine mul_pos hx ?_
    rw [abs_pos, Frac.num_ofInt]
    exact_mod_cast hdl.ne'

theorem evaluateF_den_pos (inp : SchedInput) (ind : List Int) :
    0 < (evaluateF inp ind).den := by
  rw [evaluateF]
  have hd : 0 < (evalDistributionF inp (individualToSchedule inp ind)).den := by
    refine evalDistributionF_den_pos inp _ ?_
    by_cases ht : inp.timeslots = []
    · exact Or.inl (decode_no_timeslots inp ind ht)
    · exact Or.inr ht
  have hw : 0 < (evalWorkloadF (individualToSchedule inp ind)).den :=
    evalWorkloadF_den_pos _
  have hden : (Frac.add
      (Frac.add
        (Frac.mul (Frac.ofInt (evalGapsZ inp (individualToSchedule inp ind))) ⟨3, 10⟩)
        (Frac.mul (evalDistributionF inp (individualToSchedule inp ind)) ⟨3, 10⟩))
      (Frac.mul (evalWorkloadF (individualToSchedule inp ind)) ⟨4, 10⟩)).den
      = 1 * 10 * ((evalDistributionF inp (individualToSchedule inp ind)).den * 10)
        * ((evalWorkloadF (individualToSchedule inp ind)).den * 10) := rfl
  rw [hden]
  exact mul_pos (mul_pos (by norm_num) (mul_pos hd (by norm_num)))
    (mul_pos hw (by norm_num))

/-- Membership-or-default for the `random.choice` list access. -/
theorem getD_fit_ok (pop : List Indiv) (hp : ∀ i ∈ pop, 0 < (fitF i).den) (n : Nat) :
    0 < (fitF (pop.getD n default)).den := by
  rw [List.getD_eq_getElem?_getD]
  cases h : pop[n]? with
  | none =>
    show (0 : Int) < (1 : Int)
    norm_num
  | some x =>
    simp only [Option.getD_some]
    exact hp x (List.getElem?_mem h)

theorem tournamentOne_ok (pop : List Indiv) (stream : Nat → Nat) (pos : Nat)
    (hp : ∀ i ∈ pop, 0 < (fitF i).den) :
    0 < (fitF (tournamentOne pop stream pos).1).den := by
  rw [tournamentOne]
  split
  · split
    · exact getD_fit_ok pop hp _
    · exact getD_fit_ok pop hp _
  · split
    · exact getD_fit_ok pop hp _
    · exact getD_fit_ok pop hp _

theorem selTournament_ok (pop : List Indiv) (k : Nat) (stream : Nat → Nat) (pos : Nat)
    (hp : ∀ i ∈ pop, 0 < (fitF i).den) :
    ∀ i ∈ (selTournament pop k stream pos).1, 0 < (fitF i).den := by
  rw [selTournament]
  refine foldl_inv
    (fun st : List Indiv × Nat => ∀ i ∈ st.1, 0 < (fitF i).den) _ _ _
    (by intro i hi; cases hi) ?_
  intro st hst n _ i hi
  rcases List.mem_append.mp hi with h | h
  · exact hst i h
  · rw [List.mem_singleton.mp h]
    exact tournamentOne_ok pop stream st.2 hp

theorem selTournament_len (pop : List Indiv) (stream : Nat → Nat) :
    ∀ (ks : List Nat) (acc : List Indiv) (pos : Nat),
      ((ks.foldl (fun st _ =>
        let w := tournamentOne pop stream st.2
        (st.1 ++ [w.1], w.2)) (acc, pos)).1).length = acc.length + ks.length := by
  intro ks
  induction ks with
  | nil => intro acc pos; simp
  | cons a t ih =>
    intro acc pos
    rw [List.foldl_cons]
    have := ih (acc ++ [(tournamentOne pop stream pos).1]) (tournamentOne pop stream pos).2
    simp only [List.length_append, List.length_singleton] at this
    simp only [this, List.length_cons]
    omega

theorem matePairs_len (stream : Nat → Nat) : ∀ (l : List Indiv) (pos : Nat),
    ((matePairs stream l pos).1).length = l.length
  | [], _ => by simp [matePairs]
  | [a], _ => by simp [matePairs]
  | a :: b :: rest, pos => by
    rw [matePairs]
    split
    · simp only [List.length_cons]
      rw [matePairs_len stream rest]
    · simp only [List.length_cons]
      rw [matePairs_len stream rest]

theorem matePairs_ok (stream : Nat → Nat) : ∀ (l : List Indiv) (pos : Nat),
    (∀ i ∈ l, 0 < (fitF i).den) →
    ∀ i ∈ (matePairs stream l pos).1, 0 < (fitF i).den
  | [], _ => by intro h i hi; exact h i (by simpa [matePairs] using hi)
  | [a], _ => by intro h i hi; exact h i (by simpa [matePairs] using hi)
  | a :: b :: rest, pos => by
    intro h i hi
    rw [matePairs] at hi
    have hrest : ∀ i ∈ rest, 0 < (fitF i).den := fun j hj =>
      h j (List.mem_cons_of_mem a (List.mem_cons_of_mem b hj))
    split at hi
    · rcases List.mem_cons.mp hi with rfl | hi2
      · norm_num [fitF, Frac.den_ofInt]
      · rcases List.mem_cons.mp hi2 with rfl | hi3
        · norm_num [fitF, Frac.den_ofInt]
        · exact matePairs_ok stream rest _ hrest i hi3
    · rcases List.mem_cons.mp hi with rfl | hi2
      · exact h i (List.mem_cons_self i _)
      · rcases List.mem_cons.mp hi2 with rfl | hi3
        · exact h i (List.mem_cons_of_mem a (List.mem_cons_self i rest))
        · exact matePairs_ok stream rest _ hrest i hi3

theorem mutateAll_len (inp : SchedInput) (stream : Nat → Nat) :
    ∀ (l : List Indiv) (pos : Nat), ((mutateAll inp stream l pos).1).length = l.length
  | [], _ => by simp [mutateAll]
  | a :: rest, pos => by
    rw [mutateAll]
    split
    · simp only [List.length_cons]
      rw [mutateAll_len inp stream rest]
    · simp only [List.length_cons]
      rw [mutateAll_len inp stream rest]

theorem mutateAll_ok (inp : SchedInput) (stream : Nat → Nat) :
    ∀ (l : List Indiv) (pos : Nat), (∀ i ∈ l, 0 < (fitF i).den) →
    ∀ i ∈ (mutateAll inp stream l pos).1, 0 < (fitF i).den
  | [], _ => by intro _ i hi; simp [mutateAll] at hi
  | a :: rest, pos => by
    intro h i hi
    rw [mutateAll] at hi
    have hrest : ∀ i ∈ rest, 0 < (fitF i).den := fun j hj => h j (List.mem_cons_of_mem a hj)
    split at hi
    · rcases List.mem_cons.mp hi with rfl | hi2
      · norm_num [fitF, Frac.den_ofInt]
      · exact mutateAll_ok inp stream rest _ hrest i hi2
    · rcases List.mem_cons.mp hi with rfl | hi2
      · exact h i (List.mem_cons_self i rest)
      · exact mutateAll_ok inp stream rest _ hrest i hi2

theorem reevaluate_len (inp : SchedInput) (l : List Indiv) :
    (reevaluate inp l).length = l.length := List.length_map ..

theorem reevaluate_ok (inp : SchedInput) (l : List Indiv)
    (h : ∀ i ∈ l, 0 < (fitF i).den) :
    ∀ i ∈ reevaluate inp l, 0 < (fitF i).den := by
  intro i hi
  obtain ⟨j, hj, rfl⟩ := List.mem_map.mp hi
  cases hf : j.fit with
  | some f =>
    simp only [hf]
    have := h j hj
    rw [fitF, hf] at this ⊢
    exact this
  | none =>
    simp only [hf]
    show 0 < (fitF ⟨j.genes, some (evaluateF inp j.genes)⟩).den
    rw [fitF]
    exact evaluateF_den_pos inp j.genes

theorem generationStep_ok (inp : SchedInput) (stream : Nat → Nat)
    (st : List Indiv × Nat) (h : ∀ i ∈ st.1, 0 < (fitF i).den) :
    ∀ i ∈ (generationStep inp stream st).1, 0 < (fitF i).den := by
  rw [generationStep]
  exact reevaluate_ok inp _
    (mutateAll_ok inp stream _ _
      (matePairs_ok stream _ _ (selTournament_ok st.1 st.1.length stream st.2 h)))

theorem generationStep_len (inp : SchedInput) (stream : Nat → Nat)
    (st : List Indiv × Nat) :
    ((generationStep inp stream st).1).length = st.1.length := by
  rw [generationStep]
  show (reevaluate inp _).length = _
  rw [reevaluate_len, mutateAll_len, matePairs_len]
  rw [selTournament]
  rw [selTournament_len st.1 stream (List.range st.1.length) [] st.2]
  simp

theorem initialPop_ok (inp : SchedInput) (base : Schedule) :
    ∀ i ∈ initialPop inp base, 0 < (fitF i).den := by
  intro i hi
  obtain ⟨j, _, rfl⟩ := List.mem_map.mp hi
  show 0 < (fitF ⟨j.genes, some (evaluateF inp j.genes)⟩).den
  rw [fitF]
  exact evaluateF_den_pos inp j.genes

theorem initialPop_len (inp : SchedInput) (base : Schedule) :
    (initialPop inp base).length = 20 := by
  rw [initialPop, List.length_map, List.length_replicate]

theorem finalState_ok (inp : SchedInput) (base : Schedule) (stream : Nat → Nat) :
    (∀ i ∈ (finalState inp base stream).1, 0 < (fitF i).den)
    ∧ ((finalState inp base stream).1).length = 20 := by
  rw [finalState]
  refine foldl_inv
    (fun st : List Indiv × Nat =>
      (∀ i ∈ st.1, 0 < (fitF i).den) ∧ st.1.length = 20) _ _ _
    ⟨initialPop_ok inp base, initialPop_len inp base⟩ ?_
  intro st hst _ _
  exact ⟨generationStep_ok inp stream st hst.1,
    (generationStep_len inp stream st).trans hst.2⟩

/-- CPython `max` over a nonempty list by fitness: the result is a member
and no member exceeds it. -/
theorem foldl_best (xs : List Indiv) :
    ∀ (x : Indiv), 0 < (fitF x).den → (∀ y ∈ xs, 0 < (fitF y).den) →
      (((xs.foldl (fun b y => if Frac.ltB (fitF b) (fitF y) then y else b) x) = x
        ∨ (xs.foldl (fun b y => if Frac.ltB (fitF b) (fitF y) then y else b) x) ∈ xs)
      ∧ (fitF x).toRat
          ≤ (fitF (xs.foldl (fun b y => if Frac.ltB (fitF b) (fitF y) then y else b) x)).toRat
      ∧ ∀ y ∈ xs, (fitF y).toRat
          ≤ (fitF (xs.foldl (fun b y => if Frac.ltB (fitF b) (fitF y) then y else b) x)).toRat) := by
  induction xs with
  | nil =>
    intro x _ _
    exact ⟨Or.inl rfl, le_refl _, fun y hy => absurd hy (List.not_mem_nil y)⟩
  | cons y ys ih =>
    intro x hx hys
    have hy : 0 < (fitF y).den := hys y (List.mem_cons_self y ys)
    have hys2 : ∀ z ∈ ys, 0 < (fitF z).den := fun z hz => hys z (List.mem_cons_of_mem y hz)
    simp only [List.foldl_cons]
    by_cases hlt : Frac.ltB (fitF x) (fitF y) = true
    · simp only [hlt, if_true]
      obtain ⟨hmem, hle, hall⟩ := ih y hy hys2
      have hxy : (fitF x).toRat ≤ (fitF y).toRat :=
        le_of_lt ((ltB_iff_toRat _ _ hx hy).mp hlt)
      refine ⟨?_, hxy.trans hle, ?_⟩
      · rcases hmem with h | h
        · refine Or.inr ?_
          rw [h]
          exact List.mem_cons_self y ys
        · exact Or.inr (List.mem_cons_of_mem y h)
      · intro z hz
        rcases List.mem_cons.mp hz with rfl | hz2
        · exact hle
        · exact hall z hz2
    · simp only [hlt, if_false]
      obtain ⟨hmem, hle, hall⟩ := ih x hx hys2
      have hyx : (fitF y).toRat ≤ (fitF x).toRat := by
        by_contra hcon
        push_neg at hcon
        exact hlt ((ltB_iff_toRat _ _ hx hy).mpr hcon)
      refine ⟨?_, hle, ?_⟩
      · rcases hmem with h | h
        · exact Or.inl h
        · exact Or.inr (List.mem_cons_of_mem y h)
      · intro z hz
        rcases List.mem_cons.mp hz with rfl | hz2
        · exact hyx.trans hle
        · exact hall z hz2

/-- C4, amended.  For every input, base schedule and random stream, the
schedule materialized by `_optimize_schedule` is decoded from an
individual of the final generation's population whose fitness is maximal
within that population (`selBest` over the final population only);
individuals of earlier generations play no role, and `C4_counterexample`
exhibits a run where a strictly fitter earlier individual is lost. -/
theorem C4_final_population_best (inp : SchedInput) (base : Schedule)
    (stream : Nat → Nat) :
    ∃ b, b ∈ (finalState inp base stream).1
      ∧ (∀ x ∈ (finalState inp base stream).1, (fitF x).toRat ≤ (fitF b).toRat)
      ∧ optimizeSchedule inp base stream = individualToSchedule inp b.genes := by
  obtain ⟨hok, hlen⟩ := finalState_ok inp base stream
  cases hpop : (finalState inp base stream).1 with
  | nil => rw [hpop] at hlen; cases hlen
  | cons x xs =>
    rw [hpop] at hok
    have hx : 0 < (fitF x).den := hok x (List.mem_cons_self x xs)
    have hxs : ∀ y ∈ xs, 0 < (fitF y).den := fun y hy => hok y (List.mem_cons_of_mem x hy)
    obtain ⟨hmem, hle, hall⟩ := foldl_best xs x hx hxs
    refine ⟨selBestFirst (x :: xs), ?_, ?_, ?_⟩
    · rw [selBestFirst]
      rcases hmem with h | h
      · rw [h]
        exact List.mem_cons_self x xs
      · exact List.mem_cons_of_mem x h
    · intro z hz
      rw [selBestFirst]
      rcases List.mem_cons.mp hz with rfl | hz2
      · exact hle
      · exact hall z hz2
    · rw [optimizeSchedule, hpop]

/-- Witness for the amended C4 at the concrete run of the counterexample. -/
theorem C4_final_population_best_witness :
    ∃ b, b ∈ (finalState inpC4 (extractSchedule inpC4 sigmaC4) c4stream).1
      ∧ (∀ x ∈ (finalState inpC4 (extractSchedule inpC4 sigmaC4) c4stream).1,
          (fitF x).toRat ≤ (fitF b).toRat)
      ∧ optimizeSchedule inpC4 (extractSchedule inpC4 sigmaC4) c4stream
          = individualToSchedule inpC4 b.genes :=
  C4_final_population_best inpC4 (extractSchedule inpC4 sigmaC4) c4stream

/-! ## Real-number semantics of the score arithmetic (for C7) -/

theorem Frac.toRat_ofInt (n : Int) : (Frac.ofInt n).toRat = (n : ℚ) := by
  rw [Frac.toRat, Frac.ofInt]
  norm_num

theorem Frac.toRat_add (a b : Frac) (ha : a.den ≠ 0) (hb : b.den ≠ 0) :
    (Frac.add a b).toRat = a.toRat + b.toRat := by
  rw [Frac.add, Frac.toRat, Frac.toRat, Frac.toRat]
  have ha' : (a.den : ℚ) ≠ 0 := Int.cast_ne_zero.mpr ha
  have hb' : (b.den : ℚ) ≠ 0 := Int.cast_ne_zero.mpr hb
  show ((a.num * b.den + b.num * a.den : Int) : ℚ) / ((a.den * b.den : Int) : ℚ) = _
  push_cast
  field_simp
  try ring

theorem Frac.toRat_sub (a b : Frac) (ha : a.den ≠ 0) (hb : b.den ≠ 0) :
    (Frac.sub a b).toRat = a.toRat - b.toRat := by
  rw [Frac.sub, Frac.toRat, Frac.toRat, Frac.toRat]
  have ha' : (a.den : ℚ) ≠ 0 := Int.cast_ne_zero.mpr ha
  have hb' : (b.den : ℚ) ≠ 0 := Int.cast_ne_zero.mpr hb
  show ((a.num * b.den - b.num * a.den : Int) : ℚ) / ((a.den * b.den : Int) : ℚ) = _
  push_cast
  field_simp
  try ring

theorem Frac.toRat_mul (a b : Frac) : (Frac.mul a b).toRat = a.toRat * b.toRat := by
  rw [Frac.mul, Frac.toRat, Frac.toRat, Frac.toRat]
  show ((a.num * b.num : Int) : ℚ) / ((a.den * b.den : Int) : ℚ) = _
  push_cast
  rw [div_mul_div_comm]

theorem Frac.toRat_fabs (a : Frac) : (Frac.fabs a).toRat = |a.toRat| := by
  rw [Frac.fabs, Frac.toRat, Frac.toRat, abs_div]
  show ((|a.num| : Int) : ℚ) / ((|a.den| : Int) : ℚ) = _
  push_cast
  rfl

theorem Frac.toRat_fmax (a b : Frac) (ha : 0 < a.den) (hb : 0 < b.den) :
    (Frac.fmax a b).toRat = max a.toRat b.toRat := by
  rw [Frac.fmax]
  by_cases h : Frac.ltB a b = true
  · rw [if_pos h, max_eq_right (le_of_lt ((ltB_iff_toRat a b ha hb).mp h))]
  · rw [if_neg h]
    have hnot : ¬ a.toRat < b.toRat := fun hc => h ((ltB_iff_toRat a b ha hb).mpr hc)
    rw [max_eq_left (le_of_not_lt hnot)]

/-- The common `max(0, 100 - dev * w)` shape of the two fractional
sub-scores lies in [0, 100] for a nonnegative deviation. -/
theorem score_range (dev : Frac) (w : Int) (h : 0 < dev.den ∧ 0 ≤ dev.toRat)
    (hw : 0 ≤ (w : ℚ)) :
    0 ≤ (Frac.fmax (Frac.ofInt 0)
        (Frac.sub (Frac.ofInt 100) (Frac.mul dev (Frac.ofInt w)))).toRat
    ∧ (Frac.fmax (Frac.ofInt 0)
        (Frac.sub (Frac.ofInt 100) (Frac.mul dev (Frac.ofInt w)))).toRat ≤ 100 := by
  have hsubden : 0 < (Frac.sub (Frac.ofInt 100) (Frac.mul dev (Frac.ofInt w))).den := by
    rw [Frac.den_sub, Frac.den_mul, Frac.den_ofInt, Frac.den_ofInt, one_mul, mul_one]
    exact h.1
  rw [Frac.toRat_fmax _ _ (by norm_num [Frac.den_ofInt]) hsubden, Frac.toRat_ofInt,
    Frac.toRat_sub _ _ (by norm_num [Frac.den_ofInt])
      (by rw [Frac.den_mul, Frac.den_ofInt, mul_one]; exact h.1.ne.symm),
    Frac.toRat_mul, Frac.toRat_ofInt, Frac.toRat_ofInt]
  constructor
  · exact le_max_left _ _
  · refine max_le (by norm_num) ?_
    have hmn : 0 ≤ dev.toRat * (w : ℚ) := mul_nonneg h.2 hw
    have h100 : ((100 : Int) : ℚ) = 100 := by norm_num
    linarith

/-- The distribution score lies in [0, 100] (for decoded schedules the
side condition always holds). -/
theorem evalDistributionF_range (inp : SchedInput) (s : Schedule)
    (h : allEntries s = [] ∨ inp.timeslots ≠ []) :
    0 ≤ (evalDistributionF inp s).toRat ∧ (evalDistributionF inp s).toRat ≤ 100 := by
  simp only [evalDistributionF]
  split
  · rw [Frac.toRat_ofInt]
    norm_num
  · rename_i h0
    have ht : inp.timeslots ≠ [] := by
      rcases h with he | ht
      · exact absurd (by rw [he]; rfl) h0
      · exact ht
    have hdl : 0 < (((timeslotIds inp).map
        (fun tsid => (findTimeslotD inp tsid).day)).dedup).length := by
      rw [List.length_pos, Ne, List.dedup_eq_nil, List.map_eq_nil_iff, timeslotIds,
        List.map_eq_nil_iff]
      exact ht
    refine score_range _ _ ?_ (by norm_num)
    refine foldl_inv (fun f : Frac => 0 < f.den ∧ 0 ≤ f.toRat) _ _ _
      ⟨by norm_num [Frac.den_ofInt], by rw [Frac.toRat_ofInt]; norm_num⟩ ?_
    intro x hx d _
    have hinner : 0 < (Frac.sub
        (Frac.ofInt ((allEntries s).countP
          (fun p => (findTimeslotD inp p.2.timeslot).day = d)))
        (Frac.div (Frac.ofInt (allEntries s).length)
          (Frac.ofInt (((timeslotIds inp).map
            (fun tsid => (findTimeslotD inp tsid).day)).dedup).length))).den := by
      rw [Frac.den_sub, Frac.den_ofInt, Frac.den_div, Frac.den_ofInt, Frac.num_ofInt,
        one_mul, one_mul]
      exact_mod_cast hdl
    constructor
    · rw [Frac.den_add, Frac.den_fabs]
      exact mul_pos hx.1 (abs_pos.mpr hinner.ne.symm)
    · rw [Frac.toRat_add _ _ hx.1.ne.symm
        (by rw [Frac.den_fabs]; exact (abs_pos.mpr hinner.ne.symm).ne.symm),
        Frac.toRat_fabs]
      exact add_nonneg hx.2 (abs_nonneg _)

/-- The workload score lies in [0, 100]. -/
theorem evalWorkloadF_range (s : Schedule) :
    0 ≤ (evalWorkloadF s).toRat ∧ (evalWorkloadF s).toRat ≤ 100 := by
  simp only [evalWorkloadF]
  split
  · rw [Frac.toRat_ofInt]
    norm_num
  · rename_i hne
    have hlen : 0 < (((allEntries s).map (fun p => p.2.teacher)).dedup).length := by
      rw [List.length_pos]
      intro hnil
      exact hne (by rw [hnil]; rfl)
    refine score_range _ _ ?_ (by norm_num)
    refine foldl_inv (fun f : Frac => 0 < f.den ∧ 0 ≤ f.toRat) _ _ _
      ⟨by norm_num [Frac.den_ofInt], by rw [Frac.toRat_ofInt]; norm_num⟩ ?_
    intro x hx w _
    have hlen2 : ((0 : Int)) < ((((allEntries s).map (fun p => p.2.teacher)).dedup).map
        (fun t => ((allEntries s).countP (fun p => p.2.teacher = t) : Int))).length := by
      rw [List.length_map]
      exact_mod_cast hlen
    have hinner : 0 < (Frac.sub (Frac.ofInt w)
        (Frac.div
          (Frac.ofInt (((((allEntries s).map (fun p => p.2.teacher)).dedup).map
            (fun t => ((allEntries s).countP (fun p => p.2.teacher = t) : Int))).foldl
              (fun a b => a + b) 0))
          (Frac.ofInt (((((allEntries s).map (fun p => p.2.teacher)).dedup).map
            (fun t => ((allEntries s).countP (fun p => p.2.teacher = t) : Int))).length)))).den := by
      rw [Frac.den_sub, Frac.den_ofInt, Frac.den_div, Frac.den_ofInt, Frac.num_ofInt,
        one_mul, one_mul]
      exact hlen2
    constructor
    · rw [Frac.den_add, Frac.den_fabs]
      exact mul_pos hx.1 (abs_pos.mpr hinner.ne.symm)
    · rw [Frac.toRat_add _ _ hx.1.ne.symm
        (by rw [Frac.den_fabs]; exact (abs_pos.mpr hinner.ne.symm).ne.symm),
        Frac.toRat_fabs]
      exact add_nonneg hx.2 (abs_nonneg _)

/-! ## The gaps score counts the empty positions between occupied slot
indices (for C7) -/

theorem gapSum_nonneg : ∀ l : List Int, 0 ≤ gapSum l
  | [] => le_refl 0
  | [_] => le_refl 0
  | a :: b :: t => by
    rw [gapSum]
    exact add_nonneg (le_max_left 0 _) (gapSum_nonneg (b :: t))

theorem foldl_min_le_init : ∀ (l : List Int) (v : Int), l.foldl min v ≤ v := by
  intro l
  induction l with
  | nil => intro v; exact le_refl v
  | cons b u ih =>
    intro v
    rw [List.foldl_cons]
    exact (ih (min v b)).trans (min_le_left v b)

theorem foldl_min_le_mem : ∀ (l : List Int) (v x : Int), x ∈ l → l.foldl min v ≤ x := by
  intro l
  induction l with
  | nil => intro v x hx; cases hx
  | cons b u ih =>
    intro v x hx
    rw [List.foldl_cons]
    rcases List.mem_cons.mp hx with rfl | hx2
    · exact (foldl_min_le_init u (min v x)).trans (min_le_right v x)
    · exact ih (min v b) x hx2

theorem init_le_foldl_max : ∀ (l : List Int) (v : Int), v ≤ l.foldl max v := by
  intro l
  induction l with
  | nil => intro v; exact le_refl v
  | cons b u ih =>
    intro v
    rw [List.foldl_cons]
    exact (le_max_left v b).trans (ih (max v b))

theorem mem_le_foldl_max : ∀ (l : List Int) (v x : Int), x ∈ l → x ≤ l.foldl max v := by
  intro l
  induction l with
  | nil => intro v x hx; cases hx
  | cons b u ih =>
    intro v x hx
    rw [List.foldl_cons]
    rcases List.mem_cons.mp hx with rfl | hx2
    · exact (le_max_right v x).trans (init_le_foldl_max u (max v x))
    · exact ih (max v b) x hx2

theorem foldl_min_mem : ∀ (l : List Int) (v : Int), l.foldl min v ∈ v :: l := by
  intro l
  induction l with
  | nil => intro v; exact List.mem_singleton.mpr rfl
  | cons b u ih =>
    intro v
    rw [List.foldl_cons]
    rcases List.mem_cons.mp (ih (min v b)) with h | h
    · rcases min_choice v b with hm | hm
      · exact List.mem_cons.mpr (Or.inl (h.trans hm))
      · exact List.mem_cons.mpr (Or.inr (List.mem_cons.mpr (Or.inl (h.trans hm))))
    · exact List.mem_cons.mpr (Or.inr (List.mem_cons.mpr (Or.inr h)))

theorem foldl_max_mem : ∀ (l : List Int) (v : Int), l.foldl max v ∈ v :: l := by
  intro l
  induction l with
  | nil => intro v; exact List.mem_singleton.mpr rfl
  | cons b u ih =>
    intro v
    rw [List.foldl_cons]
    rcases List.mem_cons.mp (ih (max v b)) with h | h
    · rcases max_choice v b with hm | hm
      · exact List.mem_cons.mpr (Or.inl (h.trans hm))
      · exact List.mem_cons.mpr (Or.inr (List.mem_cons.mpr (Or.inl (h.trans hm))))
    · exact List.mem_cons.mpr (Or.inr (List.mem_cons.mpr (Or.inr h)))

theorem foldl_min_eq_of_perm (v w : Int) (vs ws : List Int)
    (h : (v :: vs).Perm (w :: ws)) : vs.foldl min v = ws.foldl min w := by
  have h1 : vs.foldl min v ∈ w :: ws := h.mem_iff.mp (foldl_min_mem vs v)
  have h2 : ws.foldl min w ∈ v :: vs := h.mem_iff.mpr (foldl_min_mem ws w)
  refine le_antisymm ?_ ?_
  · rcases List.mem_cons.mp h2 with hm | hm
    · rw [hm]; exact foldl_min_le_init vs v
    · exact foldl_min_le_mem vs v _ hm
  · rcases List.mem_cons.mp h1 with hm | hm
    · rw [hm]; exact foldl_min_le_init ws w
    · exact foldl_min_le_mem ws w _ hm

theorem foldl_max_eq_of_perm (v w : Int) (vs ws : List Int)
    (h : (v :: vs).Perm (w :: ws)) : vs.foldl max v = ws.foldl max w := by
  have h1 : vs.foldl max v ∈ w :: ws := h.mem_iff.mp (foldl_max_mem vs v)
  have h2 : ws.foldl max w ∈ v :: vs := h.mem_iff.mpr (foldl_max_mem ws w)
  refine le_antisymm ?_ ?_
  · rcases List.mem_cons.mp h1 with hm | hm
    · rw [hm]; exact init_le_foldl_max ws w
    · exact mem_le_foldl_max ws w _ hm
  · rcases List.mem_cons.mp h2 with hm | hm
    · rw [hm]; exact init_le_foldl_max vs v
    · exact mem_le_foldl_max vs v _ hm

theorem foldl_min_of_le (t : List Int) (a : Int) (h : ∀ x ∈ t, a ≤ x) :
    t.foldl min a = a := by
  induction t with
  | nil => rfl
  | cons b u ih =>
    rw [List.foldl_cons, min_eq_left (h b (List.mem_cons_self b u))]
    exact ih (fun x hx => h x (List.mem_cons_of_mem b hx))

theorem gapSum_sorted : ∀ (t : List Int) (a : Int), (a :: t).Pairwise (· ≤ ·) →
    gapSum (a :: t) = (t.foldl max a) - a + 1 - ((a :: t).dedup.length : Int) := by
  intro t
  induction t with
  | nil =>
    intro a _
    simp [gapSum, List.dedup_cons_of_not_mem, List.not_mem_nil]
  | cons b u ih =>
    intro a hp
    obtain ⟨hle, hp2⟩ := List.pairwise_cons.mp hp
    have hab : a ≤ b := hle b (List.mem_cons_self b u)
    have hbu : ∀ x ∈ u, b ≤ x := fun x hx => (List.pairwise_cons.mp hp2).1 x hx
    rw [gapSum, ih b hp2]
    have hmax : u.foldl max (max a b) = u.foldl max b := by
      rw [max_eq_right hab]
    rw [List.foldl_cons, hmax]
    by_cases heq : a = b
    · have hmem : a ∈ b :: u := heq ▸ List.mem_cons_self b u
      rw [List.dedup_cons_of_mem hmem]
      have hz : max 0 (b - a - 1) = 0 := by
        rw [max_eq_left]
        omega
      rw [hz, heq]
      ring
    · have hlt : a < b := lt_of_le_of_ne hab heq
      have hnmem : ¬ a ∈ b :: u := by
        intro hmem
        rcases List.mem_cons.mp hmem with rfl | hmem2
        · exact heq rfl
        · exact absurd (hbu a hmem2) (not_le.mpr hlt)
      rw [List.dedup_cons_of_not_mem hnmem]
      have hmx : max 0 (b - a - 1) = b - a - 1 := by
        rw [max_eq_right]
        omega
      rw [hmx, List.length_cons]
      push_cast
      ring

theorem gapSum_sorted_minmax (t : List Int) (a : Int)
    (hp : (a :: t).Pairwise (· ≤ ·)) :
    gapSum (a :: t) = (t.foldl max a) - (t.foldl min a) + 1
      - ((a :: t).dedup.length : Int) := by
  rw [gapSum_sorted t a hp,
    foldl_min_of_le t a (fun x hx => (List.pairwise_cons.mp hp).1 x hx)]

theorem list_subset_Icc (v : Int) (vs : List Int) :
    ∀ x ∈ v :: vs, x ∈ Finset.Icc (vs.foldl min v) (vs.foldl max v) := by
  intro x hx
  rw [Finset.mem_Icc]
  rcases List.mem_cons.mp hx with rfl | hx2
  · exact ⟨foldl_min_le_init vs x, init_le_foldl_max vs x⟩
  · exact ⟨foldl_min_le_mem vs v x hx2, mem_le_foldl_max vs v x hx2⟩

theorem specGroupGaps_closed (v : Int) (vs : List Int) :
    specGroupGaps (v :: vs) = (vs.foldl max v) - (vs.foldl min v) + 1
      - ((v :: vs).dedup.length : Int) := by
  rw [specGroupGaps]
  have hmn_le : vs.foldl min v ≤ vs.foldl max v :=
    (foldl_min_le_init vs v).trans (init_le_foldl_max vs v)
  have hfilter : (Finset.Icc (vs.foldl min v) (vs.foldl max v)).filter
      (fun x => x ∈ v :: vs) = (v :: vs).toFinset := by
    ext x
    rw [Finset.mem_filter, List.mem_toFinset]
    constructor
    · intro hx; exact hx.2
    · intro hx; exact ⟨list_subset_Icc v vs x hx, hx⟩
  have hsplit : ((Finset.Icc (vs.foldl min v) (vs.foldl max v)).filter
        (fun x => x ∈ v :: vs)).card
      + ((Finset.Icc (vs.foldl min v) (vs.foldl max v)).filter
        (fun x => ¬ x ∈ v :: vs)).card
      = (Finset.Icc (vs.foldl min v) (vs.foldl max v)).card :=
    Finset.filter_card_add_filter_neg_card_eq_card _
  rw [hfilter] at hsplit
  have hicc : (Finset.Icc (vs.foldl min v) (vs.foldl max v)).card
      = (vs.foldl max v + 1 - vs.foldl min v).toNat := Int.card_Icc ..
  have hdedup : ((v :: vs).toFinset).card = ((v :: vs).dedup).length :=
    List.card_toFinset _
  have h1 : ((v :: vs).dedup).length
      + ((Finset.Icc (vs.foldl min v) (vs.foldl max v)).filter
          (fun x => ¬ x ∈ v :: vs)).card
      = (vs.foldl max v + 1 - vs.foldl min v).toNat := by
    rw [← hdedup, ← hicc]
    exact hsplit
  omega

theorem specGroupGaps_perm (v w : Int) (vs ws : List Int)
    (h : (v :: vs).Perm (w :: ws)) :
    specGroupGaps (v :: vs) = specGroupGaps (w :: ws) := by
  rw [specGroupGaps_closed, specGroupGaps_closed,
    foldl_min_eq_of_perm v w vs ws h, foldl_max_eq_of_perm v w vs ws h,
    h.dedup.length_eq]

theorem insById_pairwise (a : Int) : ∀ (l : List Int), l.Pairwise (· ≤ ·) →
    (insById (fun x y => decide (x ≤ y)) a l).Pairwise (· ≤ ·) := by
  intro l
  induction l with
  | nil => intro _; simp [insById]
  | cons b t ih =>
    intro hp
    obtain ⟨hb, hpt⟩ := List.pairwise_cons.mp hp
    rw [insById]
    split
    · rename_i hab
      rw [decide_eq_true_eq] at hab
      refine List.pairwise_cons.mpr ⟨?_, hp⟩
      intro x hx
      rcases List.mem_cons.mp hx with rfl | hx2
      · exact hab
      · exact hab.trans (hb x hx2)
    · rename_i hab
      rw [decide_eq_true_eq] at hab
      have hba : b ≤ a := le_of_not_le hab
      refine List.pairwise_cons.mpr ⟨?_, ih hpt⟩
      intro x hx
      have hx2 := (insById_perm (fun x y => decide (x ≤ y)) a t).mem_iff.mp hx
      rcases List.mem_cons.mp hx2 with rfl | hx3
      · exact hba
      · exact hb x hx3

theorem isort_pairwise : ∀ (l : List Int),
    (isort (fun x y => decide (x ≤ y)) l).Pairwise (· ≤ ·)
  | [] => List.Pairwise.nil
  | x :: xs => by
    rw [isort]
    exact insById_pairwise x _ (isort_pairwise xs)

/-- Per group, the sorted adjacent-difference sum of `_evaluate_gaps`
counts exactly the empty slot-index positions between the occupied
values. -/
theorem groupGaps_eq_spec (l : List Int) :
    (if 1 < l.length then gapSum (isort (fun a b => decide (a ≤ b)) l) else 0)
      = specGroupGaps l := by
  have hperm := isort_perm (fun a b => decide (a ≤ b)) l
  by_cases h : 1 < l.length
  · rw [if_pos h]
    cases hs : isort (fun a b => decide (a ≤ b)) l with
    | nil =>
      rw [hs] at hperm
      have := hperm.length_eq
      simp at this
      omega
    | cons a t =>
      have hsorted := isort_pairwise l
      rw [hs] at hsorted hperm
      rw [gapSum_sorted_minmax t a hsorted, ← specGroupGaps_closed]
      cases hl : l with
      | nil => rw [hl] at h; simp at h
      | cons v vs =>
        rw [hl] at hperm
        exact specGroupGaps_perm a v t vs hperm
  · rw [if_neg h]
    cases hl : l with
    | nil => rfl
    | cons v vs =>
      cases hvs : vs with
      | cons w ws =>
        rw [hl, hvs] at h
        simp at h
      | nil =>
        rw [specGroupGaps_closed]
        simp [List.dedup_cons_of_not_mem, List.not_mem_nil]

theorem foldl_congr_fun {α β : Type} (l : List α) (f g : β → α → β) (b : β)
    (h : ∀ acc x, f acc x = g acc x) : l.foldl f b = l.foldl g b := by
  induction l generalizing b with
  | nil => rfl
  | cons a t ih =>
    rw [List.foldl_cons, List.foldl_cons, h]
    exact ih (g b a)

/-- The whole gaps score, in the claim's form. -/
theorem evalGapsZ_eq_spec (inp : SchedInput) (sched : Schedule) :
    evalGapsZ inp sched = max 0 (100 - 5 * specTotalGaps inp sched) := by
  simp only [evalGapsZ, specTotalGaps]
  rw [mul_comm]
  refine congrArg (fun T : Int => max 0 (100 - 5 * T)) ?_
  refine foldl_congr_fun _ _ _ _ ?_
  intro acc gid
  cases sched.find? (fun p => p.1 = gid) with
  | none => rfl
  | some p =>
    show (if 1 < (groupSlotIndices inp p.2).length then
        acc + gapSum (isort (fun a b => decide (a ≤ b)) (groupSlotIndices inp p.2))
      else acc) = acc + specGroupGaps (groupSlotIndices inp p.2)
    rw [← groupGaps_eq_spec (groupSlotIndices inp p.2)]
    split
    · rfl
    · omega

theorem evalGapsZ_range (inp : SchedInput) (sched : Schedule) :
    0 ≤ evalGapsZ inp sched ∧ evalGapsZ inp sched ≤ 100 := by
  simp only [evalGapsZ]
  constructor
  · exact le_max_left _ _
  · refine max_le (by norm_num) ?_
    refine sub_le_self _ ?_
    refine mul_nonneg ?_ (by norm_num)
    refine foldl_inv (fun t : Int => 0 ≤ t) _ _ _ (le_refl 0) ?_
    intro x hx gid _
    cases sched.find? (fun p => p.1 = gid) with
    | none => exact hx
    | some p =>
      show 0 ≤ (if 1 < (groupSlotIndices inp p.2).length then
          x + gapSum (isort (fun a b => decide (a ≤ b)) (groupSlotIndices inp p.2))
        else x)
      split
      · exact add_nonneg hx (gapSum_nonneg _)
      · exact hx

/-- C7.  The fitness of every individual is
0.3·GapsScore + 0.3·SpreadScore + 0.4·WorkloadScore of its decoded
schedule; each sub-score lies in [0, 100]; and the gaps score equals
max(0, 100 − 5·(sum over groups of the number of empty slotIndex
positions between the group's occupied slotIndex values)). -/
theorem C7_fitness (inp : SchedInput) (ind : List Int) :
    (evaluateF inp ind).toRat
        = 3 / 10 * ((evalGapsZ inp (individualToSchedule inp ind) : Int) : ℚ)
          + 3 / 10 * (evalDistributionF inp (individualToSchedule inp ind)).toRat
          + 4 / 10 * (evalWorkloadF (individualToSchedule inp ind)).toRat
    ∧ evalGapsZ inp (individualToSchedule inp ind)
        = max 0 (100 - 5 * specTotalGaps inp (individualToSchedule inp ind))
    ∧ (0 ≤ evalGapsZ inp (individualToSchedule inp ind)
        ∧ evalGapsZ inp (individualToSchedule inp ind) ≤ 100)
    ∧ (0 ≤ (evalDistributionF inp (individualToSchedule inp ind)).toRat
        ∧ (evalDistributionF inp (individualToSchedule inp ind)).toRat ≤ 100)
    ∧ (0 ≤ (evalWorkloadF (individualToSchedule inp ind)).toRat
        ∧ (evalWorkloadF (individualToSchedule inp ind)).toRat ≤ 100) := by
  have hside : allEntries (individualToSchedule inp ind) = [] ∨ inp.timeslots ≠ [] := by
    by_cases ht : inp.timeslots = []
    · exact Or.inl (decode_no_timeslots inp ind ht)
    · exact Or.inr ht
  have hdden := evalDistributionF_den_pos inp (individualToSchedule inp ind) hside
  have hwden := evalWorkloadF_den_pos (individualToSchedule inp ind)
  refine ⟨?_, evalGapsZ_eq_spec inp (individualToSchedule inp ind),
    evalGapsZ_range inp (individualToSchedule inp ind),
    evalDistributionF_range inp (individualToSchedule inp ind) hside,
    evalWorkloadF_range (individualToSchedule inp ind)⟩
  rw [evaluateF]
  have h310 : ((⟨3, 10⟩ : Frac)).toRat = 3 / 10 := by
    rw [Frac.toRat]
    norm_num
  have h410 : ((⟨4, 10⟩ : Frac)).toRat = 4 / 10 := by
    rw [Frac.toRat]
    norm_num
  have hd1 : (Frac.mul (Frac.ofInt (evalGapsZ inp (individualToSchedule inp ind)))
      (⟨3, 10⟩ : Frac)).den ≠ 0 := by
    rw [Frac.den_mul, Frac.den_ofInt]
    norm_num
  have hd2 : (Frac.mul (evalDistributionF inp (individualToSchedule inp ind))
      (⟨3, 10⟩ : Frac)).den ≠ 0 := by
    rw [Frac.den_mul]
    show (evalDistributionF inp (individualToSchedule inp ind)).den * 10 ≠ 0
    positivity
  have hd3 : (Frac.mul (evalWorkloadF (individualToSchedule inp ind))
      (⟨4, 10⟩ : Frac)).den ≠ 0 := by
    rw [Frac.den_mul]
    show (evalWorkloadF (individualToSchedule inp ind)).den * 10 ≠ 0
    positivity
  have hd12 : (Frac.add
      (Frac.mul (Frac.ofInt (evalGapsZ inp (individualToSchedule inp ind)))
        (⟨3, 10⟩ : Frac))
      (Frac.mul (evalDistributionF inp (individualToSchedule inp ind))
        (⟨3, 10⟩ : Frac))).den ≠ 0 := by
    rw [Frac.den_add]
    exact mul_ne_zero hd1 hd2
  rw [Frac.toRat_add _ _ hd12 hd3, Frac.toRat_add _ _ hd1 hd2, Frac.toRat_mul,
    Frac.toRat_mul, Frac.toRat_mul, Frac.toRat_ofInt, h310, h410]
  ring

/-! ## The decoder follows the claimed per-session description (C6) -/

theorem slice_enum_eq (l : List String) (p d : Nat) (h : p + d ≤ l.length) :
    ((l.drop p).take d).enum = (List.range d).map (fun j => (j, l.getD (p + j) "")) := by
  have hlen : ((l.drop p).take d).length = d := by
    rw [List.length_take, List.length_drop]
    omega
  refine List.ext_getElem ?_ ?_
  · rw [List.enum_length, hlen, List.length_map, List.length_range]
  · intro j h1 h2
    have hj : j < d := by
      rw [List.enum_length, hlen] at h1
      exact h1
    have hjt : j < ((l.drop p).take d).length := by rw [hlen]; exact hj
    have hjd : j < (l.drop p).length := by
      rw [List.length_drop]
      omega
    have hpj : p + j < l.length := by omega
    rw [List.getElem_enum, List.getElem_map, List.getElem_range, List.getElem_take,
      List.getElem_drop, List.getD_eq_getElem l "" hpj]

theorem findIdx_le_length_str (l : List String) (q : String → Bool) :
    l.findIdx q ≤ l.length := List.findIdx_le_length ..

theorem decodeEmit_eq_spec (inp : SchedInput) (ind : List Int) (k : Nat) (c : Course)
    (inst : Nat) (m : GroupSched) :
    decodeEmit inp c (c.id ++ "_" ++ toString inst)
      ((ind.getD (3 * k) 0).emod ((timeslotIds inp).length : Int)).toNat
      ((ind.getD (3 * k + 1) 0).emod ((teacherIds inp).length : Int)).toNat
      ((ind.getD (3 * k + 2) 0).emod ((roomIds inp).length : Int)).toNat m
    = specApply m (specSessionEntries inp ind k c inst) := by
  simp only [decodeEmit, specSessionEntries, specApply]
  generalize ((ind.getD (3 * k) 0).emod ((timeslotIds inp).length : Int)).toNat = tIdx
  generalize ((ind.getD (3 * k + 1) 0).emod ((teacherIds inp).length : Int)).toNat = teIdx
  generalize ((ind.getD (3 * k + 2) 0).emod ((roomIds inp).length : Int)).toNat = rIdx
  generalize hts : (timeslotIds inp).getD tIdx "" = tsId
  generalize hds : daySlotIds inp (findTimeslotD inp tsId).day = dayIds
  have hple : dayIds.findIdx (fun x => x = tsId) ≤ dayIds.length := by
    exact List.findIdx_le_length ..
  generalize hp : dayIds.findIdx (fun x => x = tsId) = p at hple
  cases hdur : c.duration with
  | zero =>
    have hcond : ((p : Int) + (0 : Nat) - 1 < (dayIds.length : Int)) := by
      push_cast
      omega
    rw [if_pos hcond, if_neg (by omega)]
    rfl
  | succ d =>
    by_cases hfit : p + (d + 1) ≤ dayIds.length
    · have hcond : ((p : Int) + ((d + 1 : Nat) : Int) - 1 < (dayIds.length : Int)) := by
        push_cast
        omega
      rw [if_pos hcond, if_neg (by omega)]
      rw [slice_enum_eq dayIds p (d + 1) hfit, List.foldl_map, List.foldl_map]
    · have hcond : ¬ ((p : Int) + ((d + 1 : Nat) : Int) - 1 < (dayIds.length : Int)) := by
        push_cast
        omega
      rw [if_neg hcond, if_pos (by omega)]
      rfl

theorem specFoldSessions_fst (inp : SchedInput) (ind : List Int) :
    ∀ (l : List (Course × Nat)) (k : Nat) (m : GroupSched),
      (specFoldSessions inp ind l (k, m)).1 = k + l.length := by
  intro l
  induction l with
  | nil => intro k m; rfl
  | cons s t ih =>
    intro k m
    rw [specFoldSessions, List.foldl_cons]
    have := ih (k + 1) (specApply m (specSessionEntries inp ind k s.1 s.2))
    rw [specFoldSessions] at this
    rw [this, List.length_cons]
    omega

theorem specFoldSessions_append (inp : SchedInput) (ind : List Int)
    (l1 l2 : List (Course × Nat)) (st : Nat × GroupSched) :
    specFoldSessions inp ind (l1 ++ l2) st
      = specFoldSessions inp ind l2 (specFoldSessions inp ind l1 st) := by
  simp only [specFoldSessions, List.foldl_append]

theorem foldl_guard {α β : Type} (p : α → Bool) (f : β → α → β) :
    ∀ (l : List α) (b : β),
      l.foldl (fun st a => if p a then f st a else st) b = (l.filter p).foldl f b := by
  intro l
  induction l with
  | nil => intro b; rfl
  | cons a t ih =>
    intro b
    rw [List.foldl_cons]
    by_cases hpa : p a = true
    · rw [if_pos hpa, List.filter_cons_of_pos hpa, List.foldl_cons, ih]
    · rw [if_neg hpa, List.filter_cons_of_neg hpa, ih]

theorem decodeCourse_range_eq_spec (inp : SchedInput) (ind : List Int) (c : Course) :
    ∀ (n k : Nat) (m : GroupSched), 3 * (k + n) ≤ ind.length →
    (List.range n).foldl
      (fun st i =>
        let instKey := c.id ++ "_" ++ toString (i + 1)
        if st.1 + 2 < ind.length then
          (st.1 + 3, decodeEmit inp c instKey
            ((ind.getD st.1 0).emod ((timeslotIds inp).length : Int)).toNat
            ((ind.getD (st.1 + 1) 0).emod ((teacherIds inp).length : Int)).toNat
            ((ind.getD (st.1 + 2) 0).emod ((roomIds inp).length : Int)).toNat st.2)
        else st)
      (3 * k, m)
    = (3 * (k + n),
       (specFoldSessions inp ind ((List.range n).map (fun i => (c, i + 1))) (k, m)).2) := by
  intro n
  induction n with
  | zero =>
    intro k m _
    rfl
  | succ d ihn =>
    intro k m hb
    rw [List.range_succ, List.foldl_append, List.foldl_cons, List.foldl_nil]
    rw [ihn k m (by omega)]
    have hcnd : 3 * (k + d) + 2 < ind.length := by omega
    show (if 3 * (k + d) + 2 < ind.length then _ else _) = _
    rw [if_pos hcnd]
    dsimp only
    have hfst := specFoldSessions_fst inp ind
      ((List.range d).map (fun i => (c, i + 1))) k m
    rw [List.length_map, List.length_range] at hfst
    rw [List.map_append, specFoldSessions_append]
    have hsingle : ∀ (st : Nat × GroupSched),
        specFoldSessions inp ind (List.map (fun i => (c, i + 1)) [d]) st
          = (st.1 + 1, specApply st.2 (specSessionEntries inp ind st.1 c (d + 1))) := by
      intro st
      rfl
    rw [hsingle, hfst]
    dsimp only
    rw [decodeEmit_eq_spec inp ind (k + d) c (d + 1)]
    rw [Prod.mk.injEq]
    exact ⟨by ring, rfl⟩

theorem decodeCourse_eq_spec (inp : SchedInput) (ind : List Int) (c : Course)
    (k : Nat) (m : GroupSched) (hb : 3 * (k + freqOf c.type) ≤ ind.length) :
    decodeCourse inp ind c (3 * k, m)
    = (3 * (k + freqOf c.type),
       (specFoldSessions inp ind
         ((List.range (freqOf c.type)).map (fun i => (c, i + 1))) (k, m)).2) :=
  decodeCourse_range_eq_spec inp ind c (freqOf c.type) k m hb

theorem courses_chain (inp : SchedInput) (ind : List Int) :
    ∀ (cs : List Course) (k : Nat) (m : GroupSched),
      3 * (k + (cs.flatMap
        (fun c => (List.range (freqOf c.type)).map (fun i => (c, i + 1)))).length)
        ≤ ind.length →
      cs.foldl (fun st c => decodeCourse inp ind c st) (3 * k, m)
      = (3 * (k + (cs.flatMap
          (fun c => (List.range (freqOf c.type)).map (fun i => (c, i + 1)))).length),
         (specFoldSessions inp ind
           (cs.flatMap (fun c => (List.range (freqOf c.type)).map (fun i => (c, i + 1))))
           (k, m)).2) := by
  intro cs
  induction cs with
  | nil =>
    intro k m _
    rfl
  | cons c cs2 ih =>
    intro k m hb
    have hlenc : ((List.range (freqOf c.type)).map
        (fun i => ((c, i + 1) : Course × Nat))).length = freqOf c.type := by
      rw [List.length_map, List.length_range]
    have hflat : ((c :: cs2).flatMap
        (fun c => (List.range (freqOf c.type)).map (fun i => (c, i + 1)))).length
        = freqOf c.type + (cs2.flatMap
          (fun c => (List.range (freqOf c.type)).map (fun i => (c, i + 1)))).length := by
      rw [List.flatMap_cons, List.length_append, hlenc]
    rw [List.foldl_cons]
    rw [decodeCourse_eq_spec inp ind c k m (by omega)]
    rw [ih (k + freqOf c.type) _ (by omega)]
    have hpair : specFoldSessions inp ind
        ((List.range (freqOf c.type)).map (fun i => (c, i + 1))) (k, m)
        = (k + freqOf c.type,
           (specFoldSessions inp ind
             ((List.range (freqOf c.type)).map (fun i => (c, i + 1))) (k, m)).2) := by
      rw [Prod.mk.injEq]
      refine ⟨?_, rfl⟩
      rw [specFoldSessions_fst, hlenc]
    rw [List.flatMap_cons, specFoldSessions_append, ← hpair]
    rw [Prod.mk.injEq]
    refine ⟨?_, rfl⟩
    rw [List.length_append, hlenc]
    ring

theorem decodeGroup_eq_spec (inp : SchedInput) (ind : List Int) (g : Group) (k : Nat)
    (hb : 3 * (k + (groupSessions inp g).length) ≤ ind.length) :
    decodeGroup inp ind g (3 * k)
    = (3 * (k + (groupSessions inp g).length),
       (specFoldSessions inp ind (groupSessions inp g) (k, [])).2) := by
  have h1 : decodeGroup inp ind g (3 * k)
      = (validSortedCourses inp g).foldl
          (fun st c => decodeCourse inp ind c st) (3 * k, []) := by
    rw [decodeGroup, validSortedCourses,
      foldl_guard (fun cid => (courseIds inp).contains cid)
        (fun st cid => decodeCourse inp ind (findCourseD inp cid) st),
      List.foldl_map]
  rw [h1, courses_chain inp ind (validSortedCourses inp g) k [] ?_]
  · rfl
  · exact hb

theorem groups_chain (inp : SchedInput) (ind : List Int) :
    ∀ (gs : List Group) (k : Nat) (acc : Schedule),
      3 * (k + (gs.flatMap
        (fun g => (groupSessions inp g).map (fun s => (g.id, s)))).length) ≤ ind.length →
      (gs.foldl
        (fun st g =>
          let r := decodeGroup inp ind g st.1
          (r.1, st.2 ++ [(g.id, r.2)]))
        (3 * k, acc)).2
      = (gs.foldl
          (fun st g =>
            let r := specFoldSessions inp ind (groupSessions inp g) (st.1, [])
            (r.1, st.2 ++ [(g.id, r.2)]))
          (k, acc)).2 := by
  intro gs
  induction gs with
  | nil =>
    intro k acc _
    rfl
  | cons g gs2 ih =>
    intro k acc hb
    have hflat : ((g :: gs2).flatMap
        (fun g => (groupSessions inp g).map (fun s => (g.id, s)))).length
        = (groupSessions inp g).length + (gs2.flatMap
          (fun g => (groupSessions inp g).map (fun s => (g.id, s)))).length := by
      rw [List.flatMap_cons, List.length_append, List.length_map]
    rw [List.foldl_cons, List.foldl_cons]
    show ((gs2.foldl _ ((decodeGroup inp ind g (3 * k)).1,
        acc ++ [(g.id, (decodeGroup inp ind g (3 * k)).2)])).2 : Schedule) = _
    rw [decodeGroup_eq_spec inp ind g k (by omega)]
    have hfst : (specFoldSessions inp ind (groupSessions inp g) (k, [])).1
        = k + (groupSessions inp g).length := by
      rw [specFoldSessions_fst]
    show (gs2.foldl _ (3 * (k + (groupSessions inp g).length),
        acc ++ [(g.id, (specFoldSessions inp ind (groupSessions inp g) (k, [])).2)])).2 = _
    rw [ih (k + (groupSessions inp g).length) _ (by omega)]
    change _ = (gs2.foldl _
      ((specFoldSessions inp ind (groupSessions inp g) (k, [])).1,
       acc ++ [(g.id, (specFoldSessions inp ind (groupSessions inp g) (k, [])).2)])).2
    rw [hfst]

/-- C6.  For every genome of the canonical length (three genes per
session), `_individual_to_schedule` decodes exactly as the claim
describes: the k-th session's three genes are reduced modulo the
timeslot, teacher and room counts, the session occupies `duration`
consecutive slots of the chosen slot's day starting there, and it is
dropped — leaving the rest untouched — exactly when fewer than `duration`
consecutive slots remain in that day. -/
theorem C6_decode_follows_spec (inp : SchedInput) (ind : List Int)
    (h : ind.length = 3 * (allSessions inp).length) :
    individualToSchedule inp ind = decodeSpec inp ind := by
  rw [individualToSchedule, decodeSpec]
  have h0 : (0 : Nat) = 3 * 0 := rfl
  have := groups_chain inp ind (sortedGroups inp) 0 []
    (by rw [← allSessions]; omega)
  rw [h0]
  exact this

/-- Witness for C6 at the concrete input of the counterexamples. -/
theorem C6_decode_follows_spec_witness :
    individualToSchedule inpC4 [1, 0, 0] = decodeSpec inpC4 [1, 0, 0] :=
  C6_decode_follows_spec inpC4 [1, 0, 0] (by decide)

end SmartScheduler
